import Mathlib

/-!
Verification of the hserv session-tracking core (package chunklog and the
hserv HTTP handlers) against its natural-language specification.

The Go sources are shallowly embedded: machine integers become Int/Nat,
wall-clock instants become Int, `time.Duration` values become Int, strings
stay String.  Calls into external libraries (net.ParseIP, uuid.Parse, the
user-agent parser) are parameters of the model, collected in `Env`.
`uuid.New()` (a random v4 identifier, which the tracker relies on never
colliding with a client-presented identifier) is modelled by a dedicated
constructor `UUID.minted` fed from a per-tracker counter, while parsed
identifiers are `UUID.parsed`; `uuid.Nil` is `UUID.parsed 0`.
-/

namespace Hserv

/-! ## Enums (internal/hserv/hserv.go, package chunklog part) -/

abbrev EventSource := Nat

def EventSourceHLS : EventSource := 0

def EventSourceIceCast : EventSource := 1

def EventSourceUnknown : EventSource := 255

def EventSourceNames : List String := ["hls", "icecast"]

def eventSourceToString (e : EventSource) : String :=
  EventSourceNames.getD e "unknown"

abbrev ChunkQuality := Nat

def ChunkQualityLoFi : ChunkQuality := 0

def ChunkQualityMidFi : ChunkQuality := 1

def ChunkQualityHiFi : ChunkQuality := 2

def ChunkQualityUnknown : ChunkQuality := 255

def ChunkQualityNames : List String := ["lofi", "midfi", "hifi"]

def chunkQualityToString (c : ChunkQuality) : String :=
  ChunkQualityNames.getD c "unknown"

def chunkQualityFromString (s : String) : ChunkQuality :=
  if s = "lofi" then ChunkQualityLoFi
  else if s = "midfi" then ChunkQualityMidFi
  else if s = "hifi" then ChunkQualityHiFi
  else ChunkQualityUnknown

abbrev Codec := Nat

def CodecAAC : Codec := 0

def CodecMP3 : Codec := 1

def CodecAC3 : Codec := 2

def CodecEAC3 : Codec := 3

def CodecDolbyAtmos : Codec := 4

def CodecFLAC : Codec := 5

def CodecOpus : Codec := 6

def CodecSpeex : Codec := 7

def CodecVorbis : Codec := 8

def CodecUnknown : Codec := 255

def CodecNames : List String :=
  ["aac", "mp3", "ac3", "eac3", "dolby_atmos", "flac", "opus", "speex", "vorbis"]

def codecToString (c : Codec) : String :=
  CodecNames.getD c "unknown"

def codecFromString (s : String) : Codec :=
  if s = "aac" then CodecAAC
  else if s = "mp3" then CodecMP3
  else if s = "ac3" then CodecAC3
  else if s = "eac3" then CodecEAC3
  else if s = "dolby_atmos" then CodecDolbyAtmos
  else if s = "flac" then CodecFLAC
  else if s = "opus" then CodecOpus
  else if s = "speex" then CodecSpeex
  else if s = "vorbis" then CodecVorbis
  else CodecUnknown

/-! ## Identifiers and external library calls -/

/-- Model of github.com/google/uuid values.  `parsed n` stands for a
concrete 128-bit identifier obtained by parsing a string (`uuid.Nil` is
`parsed 0`); `minted k` stands for the k-th identifier returned by
`uuid.New()` inside the tracker goroutine.  The two families are kept
structurally apart because the code relies on freshly generated random v4
identifiers never colliding with client-presented ones. -/
inductive UUID where
  | parsed (n : Nat)
  | minted (k : Nat)
deriving DecidableEq

def uuidNil : UUID := UUID.parsed 0

/-- Result of the medama-io user-agent parser, restricted to the fields the
session model reads. -/
structure UAInfo where
  browser : String
  browserVersion : String
  device : String
  os : String
deriving DecidableEq

/-- External library functions the embedded code calls.  `uuidParse`
returns the canonical value of a well-formed textual UUID and `none` on a
parse error; `netParseIP` is net.ParseIP (none = nil). -/
structure Env where
  uuidParse : String → Option Nat
  netParseIP : String → Option String
  uaParse : String → UAInfo

/-! ## ChunkEvent (package chunklog).

The struct in src/internal/hserv/hserv.go carries Time, Path, IP,
UserAgent, Referer, SID, UID, ChunkSize and Source; the `IcecastID` and
`Mount` fields are constructed by the icecast handler in src
(`ChunkEvent{..., IcecastID: icecastID, Mount: mount, ...}`) and read by
the current tracker (src/unnamed/part_003), so the struct revision that
declares them is not itself in src; they are included here as the callers
use them (spec section 3). -/

structure ChunkEvent where
  Time : Int
  Path : String
  IP : String
  UserAgent : String
  Referer : String
  SID : String
  UID : String
  ChunkSize : Int
  Source : EventSource
  IcecastID : Int
  Mount : String
deriving DecidableEq

/-! ## Session (package chunklog). -/

/-- Session, from src/internal/hserv/hserv.go.  The fields `Duration`,
`Mount` and `icecastID` are read and written by the current tracker
(src/unnamed/part_003: `s.Duration`, `s.Mount`, `s.icecastID`) but the
struct revision in src predates them; they are modelled from the spec
(sections 3 and 9: duration computed at flush, mount copied from the
event, icecast client-id back-pointer stored on the Session). -/
structure Session where
  SID : UUID
  UID : UUID
  Source : EventSource
  StartTime : Int
  LastActive : Int
  TotalBytes : Int
  Codec : Codec
  Quality : ChunkQuality
  IP : Option String
  Referer : String
  UABrowser : String
  UABrowserVersion : String
  UADevice : String
  UAOS : String
  Duration : Int
  Mount : String
  icecastID : Int
deriving DecidableEq

/-- sessionColumns defines the column order for COPY INTO sessions
(src/internal/hserv/hserv.go). -/
def sessionColumns : List String :=
  ["sid", "uid", "source", "start_time", "end_time", "total_bytes",
   "codec", "quality", "ip", "referer",
   "ua_browser", "ua_browser_version", "ua_device", "ua_os",
   "ua_is_desktop", "ua_is_mobile", "ua_is_tablet", "ua_is_tv",
   "ua_is_bot", "ua_is_android", "ua_is_ios", "ua_is_windows",
   "ua_is_linux", "ua_is_mac", "ua_is_openbsd", "ua_is_chromeos",
   "ua_is_chrome", "ua_is_firefox", "ua_is_safari", "ua_is_edge",
   "ua_is_opera", "ua_is_samsung_browser", "ua_is_vivaldi",
   "ua_is_yandex_browser"]

/-- A single cell of a row handed to the bulk-copy sink. -/
inductive DBValue where
  | uuid (u : UUID)
  | src (s : EventSource)
  | time (t : Int)
  | int (n : Int)
  | codec (c : Codec)
  | quality (q : ChunkQuality)
  | ip (i : Option String)
  | str (s : String)
deriving DecidableEq

/-- row returns the session as a row of values matching sessionColumns
order (src/internal/hserv/hserv.go, Session.row). -/
def Session.row (s : Session) : List DBValue :=
  [DBValue.uuid s.SID, DBValue.uuid s.UID, DBValue.src s.Source,
   DBValue.time s.StartTime, DBValue.time s.LastActive,
   DBValue.int s.TotalBytes, DBValue.codec s.Codec,
   DBValue.quality s.Quality, DBValue.ip s.IP, DBValue.str s.Referer,
   DBValue.str s.UABrowser, DBValue.str s.UABrowserVersion,
   DBValue.str s.UADevice, DBValue.str s.UAOS]

/-! ## Event enrichment -/

/-- strings.Split for a single-character separator, by structural
recursion on the character list (String.splitOn does not reduce inside the
kernel).  Matches Go semantics: splitting the empty string yields one
empty field; a leading/trailing separator yields an empty field. -/
def splitOnChar (c : Char) : List Char → List (List Char)
  | [] => [[]]
  | a :: t =>
      let r := splitOnChar c t
      if a = c then [] :: r
      else
        match r with
        | [] => [[a]]
        | h :: t2 => (a :: h) :: t2

def splitChar (c : Char) (s : String) : List String :=
  (splitOnChar c s.toList).map String.mk

/-- path/filepath Base for slash-separated paths: empty path gives ".",
trailing separators are stripped, the last element is returned, and a path
of only separators gives "/". -/
def filepathBase (p : String) : String :=
  if p = "" then "."
  else
    let r := p.toList.reverse.dropWhile (fun c => c = '/')
    if r = [] then "/"
    else String.mk (r.takeWhile (fun c => c ≠ '/')).reverse

/-- newSessionFromEvent creates a new Session from the first ChunkEvent
for a SID (src/internal/hserv/hserv.go).  `Mount` is copied from the event
per spec section 4.1 (the struct revision in src predates the field);
`Duration` and `icecastID` start at their zero values. -/
def newSessionFromEvent (env : Env) (event : ChunkEvent) : Session :=
  let sid := match env.uuidParse event.SID with
    | none => uuidNil
    | some n => UUID.parsed n
  let uid := match env.uuidParse event.UID with
    | none => uuidNil
    | some n => UUID.parsed n
  let ip := if event.IP.toList.contains ':' then
      env.netParseIP ((splitChar ':' event.IP).headD "")
    else env.netParseIP event.IP
  let ua := if event.UserAgent ≠ "" then env.uaParse event.UserAgent
    else { browser := "", browserVersion := "", device := "", os := "" }
  let cq : Codec × ChunkQuality :=
    if event.Path ≠ "" then
      let parts := splitChar '_' (filepathBase event.Path)
      if parts.length ≥ 2 then
        (codecFromString (parts.getD 0 ""), chunkQualityFromString (parts.getD 1 ""))
      else (CodecUnknown, ChunkQualityUnknown)
    else (CodecUnknown, ChunkQualityUnknown)
  { SID := sid
    UID := uid
    Source := event.Source
    StartTime := event.Time
    LastActive := event.Time
    TotalBytes := event.ChunkSize
    Codec := cq.1
    Quality := cq.2
    IP := ip
    Referer := event.Referer
    UABrowser := ua.browser
    UABrowserVersion := ua.browserVersion
    UADevice := ua.device
    UAOS := ua.os
    Duration := 0
    Mount := event.Mount
    icecastID := 0 }

/-! ## Association lists (functional model of Go maps) -/

def alookup {α β : Type} [DecidableEq α] (k : α) : List (α × β) → Option β
  | [] => none
  | p :: t => if p.1 = k then some p.2 else alookup k t

def aupsert {α β : Type} [DecidableEq α] (k : α) (v : β) : List (α × β) → List (α × β)
  | [] => [(k, v)]
  | p :: t => if p.1 = k then (k, v) :: t else p :: aupsert k v t

def aerase {α β : Type} [DecidableEq α] (k : α) : List (α × β) → List (α × β)
  | [] => []
  | p :: t => if p.1 = k then t else p :: aerase k t

def keysOf {α β : Type} (l : List (α × β)) : List α := l.map Prod.fst

/-! ## SessionTracker (src/unnamed/part_003) -/

/-- SessionTracker state.  The Go struct's events channel is the bounded
`queue` (plus `closed`, set when Shutdown closes the channel), `drops` and
`flushErrors` are the atomic counters, `timeout`/`icecastTimeout`/`cap`
the configuration.  `sessions` and `icecastSessions` are the two maps
owned by the run goroutine.  `nextMint` feeds `UUID.minted` (the model of
uuid.New()).  `flushedRows` models the rows accepted by the `sessions`
sink and `errSessions` the number of session records in failed flush
batches; `creations` and `folded` are history variables recording, for
each processed event, the resolved session UUID (they do not influence
the computation). -/
structure SessionTracker where
  queue : List ChunkEvent
  cap : Nat
  closed : Bool
  drops : Nat
  flushErrors : Nat
  timeout : Int
  icecastTimeout : Int
  sessions : List (UUID × Session)
  icecastSessions : List (Int × UUID)
  nextMint : Nat
  flushedRows : List Session
  errSessions : Nat
  creations : Nat
  folded : List (UUID × ChunkEvent)
deriving DecidableEq

def initTracker (cap : Nat) (timeout icecastTimeout : Int) : SessionTracker :=
  { queue := [], cap := cap, closed := false, drops := 0, flushErrors := 0,
    timeout := timeout, icecastTimeout := icecastTimeout, sessions := [],
    icecastSessions := [], nextMint := 0, flushedRows := [],
    errSessions := 0, creations := 0, folded := [] }

/-- Send (src/unnamed/part_003): non-blocking select on the events
channel with a default branch.  Returns `some (true, _)` when the event is
queued, `some (false, _)` (and bumps the drop counter) when the buffered
channel is full.  When the channel has been closed by Shutdown the send
case of the select is always ready and sending panics, modelled as
`none`. -/
def SessionTracker.Send (t : SessionTracker) (e : ChunkEvent) : Option (Bool × SessionTracker) :=
  if t.closed then none
  else if t.queue.length < t.cap then some (true, { t with queue := t.queue ++ [e] })
  else some (false, { t with drops := t.drops + 1 })

/-- Identity resolution in handleEvent (src/unnamed/part_003): Icecast
client ids are resolved through the icecastSessions map, minting a fresh
UUID on first sighting; otherwise the textual SID is parsed, with uuid.Nil
as the fallback. -/
def resolveSID (env : Env) (e : ChunkEvent) (t : SessionTracker) : UUID × SessionTracker :=
  if e.Source = EventSourceIceCast then
    match alookup e.IcecastID t.icecastSessions with
    | some u => (u, t)
    | none =>
        (UUID.minted t.nextMint,
         { t with icecastSessions := aupsert e.IcecastID (UUID.minted t.nextMint) t.icecastSessions,
                  nextMint := t.nextMint + 1 })
  else
    match env.uuidParse e.SID with
    | some n => (UUID.parsed n, t)
    | none => (uuidNil, t)

/-- The updated session stored for a subsequent event
(src/unnamed/part_003, handleEvent: s.LastActive = e.Time;
s.TotalBytes += e.ChunkSize). -/
def touchSession (e : ChunkEvent) (s : Session) : Session :=
  { s with LastActive := e.Time, TotalBytes := s.TotalBytes + e.ChunkSize }

/-- The session created for the first event of a resolved UUID
(src/unnamed/part_003, handleEvent: newSessionFromEvent then s.SID = sid;
the icecast client-id back-pointer per spec section 9). -/
def freshSession (env : Env) (e : ChunkEvent) (sid : UUID) : Session :=
  { newSessionFromEvent env e with SID := sid, icecastID := e.IcecastID }

/-- The body of handleEvent after identity resolution: update the
existing session or create a fresh one.  `folded`/`creations` are history
variables. -/
def applyEvent (env : Env) (e : ChunkEvent) (sid : UUID) (t : SessionTracker) : SessionTracker :=
  match alookup sid t.sessions with
  | some s =>
      { t with sessions := aupsert sid (touchSession e s) t.sessions,
               folded := t.folded ++ [(sid, e)] }
  | none =>
      { t with sessions := t.sessions ++ [(sid, freshSession env e sid)],
               folded := t.folded ++ [(sid, e)],
               creations := t.creations + 1 }

/-- handleEvent (src/unnamed/part_003): resolve the session UUID, then
update or create the session. -/
def handleEvent (env : Env) (e : ChunkEvent) (t0 : SessionTracker) : SessionTracker :=
  applyEvent env e (resolveSID env e t0).1 (resolveSID env e t0).2

/-- The reaper's expiry test (src/unnamed/part_003, reap): an Icecast
session expires once a second event arrived (last-active after start) or
past the icecast timeout; any other session expires when idle past the
session timeout. -/
def expirePred (t : SessionTracker) (now : Int) (s : Session) : Bool :=
  if s.Source = EventSourceIceCast then
    decide (s.StartTime < s.LastActive) || decide (now - s.LastActive > t.icecastTimeout)
  else
    decide (now - s.LastActive > t.timeout)

/-- The sessions collected as expired on one reaper tick. -/
def reapBatch (now : Int) (t : SessionTracker) : List (UUID × Session) :=
  t.sessions.filter (fun p => expirePred t now p.2)

/-- The per-tick batch handed to flushSessions: each expired session with
Duration set to last-active minus start. -/
def reapRows (now : Int) (t : SessionTracker) : List Session :=
  (reapBatch now t).map (fun p => { p.2 with Duration := p.2.LastActive - p.2.StartTime })

/-- Removal of the icecast map entries of expired Icecast sessions
(src/unnamed/part_003, reap: delete(icecastSessions, s.icecastID)). -/
def iceErase : List (UUID × Session) → List (Int × UUID) → List (Int × UUID)
  | [], m => m
  | p :: rest, m =>
      iceErase rest (if p.2.Source = EventSourceIceCast then aerase p.2.icecastID m else m)

/-- reap (src/unnamed/part_003): expire sessions, remove them (and the
icecast map entries) from the store, and flush the non-empty batch; `ok`
prescribes the outcome of the bulk copy (the sink is external).  A failed
flush increments flushErrors and loses the batch. -/
def reap (now : Int) (ok : Bool) (t : SessionTracker) : SessionTracker :=
  let expired := reapBatch now t
  let rows := reapRows now t
  let t2 := { t with sessions := t.sessions.filter (fun p => !(expirePred t now p.2)),
                     icecastSessions := iceErase expired t.icecastSessions }
  if rows.isEmpty then t2
  else if ok then { t2 with flushedRows := t2.flushedRows ++ rows }
  else { t2 with flushErrors := t2.flushErrors + 1, errSessions := t2.errSessions + rows.length }

/-- flushAll (src/unnamed/part_003): on shutdown, flush every remaining
session with Duration set to last-active minus start. -/
def flushAll (ok : Bool) (t : SessionTracker) : SessionTracker :=
  if t.sessions.isEmpty then t
  else
    let rows := t.sessions.map (fun p => { p.2 with Duration := p.2.LastActive - p.2.StartTime })
    if ok then { t with flushedRows := t.flushedRows ++ rows }
    else { t with flushErrors := t.flushErrors + 1, errSessions := t.errSessions + rows.length }

/-- Shutdown path of the run goroutine: the channel is closed, the worker
drains the remaining queued events, then flushes all remaining
sessions. -/
def drain (env : Env) (t : SessionTracker) : SessionTracker :=
  t.queue.foldl (fun acc e => handleEvent env e acc) { t with queue := [], closed := true }

def shutdownRun (env : Env) (ok : Bool) (t : SessionTracker) : SessionTracker :=
  flushAll ok (drain env t)

/-- One input of the tracker loop: a Submit from a request handler, the
worker taking one event off the ingress, or a reaper tick (with the
prescribed bulk-copy outcome). -/
inductive Act where
  | submit (e : ChunkEvent)
  | deq
  | reapTick (now : Int) (ok : Bool)
deriving DecidableEq

def Act.isReap : Act → Bool
  | .reapTick _ _ => true
  | _ => false

def stepAct (env : Env) (t : SessionTracker) (a : Act) : SessionTracker :=
  match a with
  | .submit e => match t.Send e with
    | some r => r.2
    | none => t
  | .deq => match t.queue with
    | [] => t
    | e :: rest => handleEvent env e { t with queue := rest }
  | .reapTick now ok => reap now ok t

def runActs (env : Env) (t : SessionTracker) (acts : List Act) : SessionTracker :=
  acts.foldl (stepAct env) t

/-- Processing a list of events straight through handleEvent (the ingest
path of the run goroutine). -/
def processEvents (env : Env) (evs : List ChunkEvent) (t : SessionTracker) : SessionTracker :=
  evs.foldl (fun acc e => handleEvent env e acc) t

/-! ## Listener-count sampling (src/unnamed/part_003, addListenersTotal) -/

/-- One row of the listeners_total sink. -/
structure LRow where
  timestamp : Int
  source : EventSource
  mount : String
  count : Nat
deriving DecidableEq

/-- An HLS session is counted on a sampling tick iff its last-active is
within the session timeout. -/
def hlsQual (now timeout : Int) (p : UUID × Session) : Bool :=
  decide (p.2.Source = EventSourceHLS) && decide (now - p.2.LastActive ≤ timeout)

/-- A non-HLS (Icecast) session is counted iff it has not yet received a
second event (start equals last-active). -/
def iceQual (p : UUID × Session) : Bool :=
  !(decide (p.2.Source = EventSourceHLS)) && decide (p.2.StartTime = p.2.LastActive)

def hlsCount (now timeout : Int) (sessions : List (UUID × Session)) (m : String) : Nat :=
  (sessions.filter (fun p => hlsQual now timeout p && decide (p.2.Mount = m))).length

def iceCount (sessions : List (UUID × Session)) (m : String) : Nat :=
  (sessions.filter (fun p => iceQual p && decide (p.2.Mount = m))).length

def hlsMounts (now timeout : Int) (sessions : List (UUID × Session)) : List String :=
  ((sessions.filter (hlsQual now timeout)).map (fun p => p.2.Mount)).dedup

def iceMounts (sessions : List (UUID × Session)) : List String :=
  ((sessions.filter iceQual).map (fun p => p.2.Mount)).dedup

/-- The rows bulk-copied into listeners_total on one sampling tick: one
row per non-empty (source, mount) bucket, timestamped at the tick. -/
def listenersRows (now timeout : Int) (sessions : List (UUID × Session)) : List LRow :=
  (hlsMounts now timeout sessions).map
      (fun m => { timestamp := now, source := EventSourceHLS, mount := m,
                  count := hlsCount now timeout sessions m })
    ++ (iceMounts sessions).map
      (fun m => { timestamp := now, source := EventSourceIceCast, mount := m,
                  count := iceCount sessions m })

/-- addListenersTotal: `none` when every bucket is empty (the function
returns before touching the sink), otherwise the rows written. -/
def addListenersTotal (now timeout : Int) (sessions : List (UUID × Session)) : Option (List LRow) :=
  if (hlsMounts now timeout sessions).isEmpty && (iceMounts sessions).isEmpty then none
  else some (listenersRows now timeout sessions)

/-! ## The HLS handler's submitted event (src/internal/hserv/hls.go) -/

/-- The session id the HLS handler uses: the URL-query value when
non-empty (Query().Get returns the empty string when the parameter is
absent), otherwise a freshly minted uuid.New().String(), here the
parameter `minted`. -/
def hlsResolveSid (querySid minted : String) : String :=
  if querySid = "" then minted else querySid

/-- The ChunkEvent the HLS handler submits after serving a chunk
(src/internal/hserv/hls.go, the SessionTracker.Send call). -/
def hlsChunkEvent (now : Int) (path : String) (size : Int)
    (remoteAddr userAgent referer querySid minted uid : String) : ChunkEvent :=
  { Time := now
    Path := path
    ChunkSize := size
    IP := remoteAddr
    UserAgent := userAgent
    Referer := referer
    SID := hlsResolveSid querySid minted
    UID := uid
    Source := EventSourceHLS
    IcecastID := 0
    Mount := "" }

/-! ## Named enum values and invariants -/

def namedCodecs : List Codec :=
  [CodecAAC, CodecMP3, CodecAC3, CodecEAC3, CodecDolbyAtmos, CodecFLAC,
   CodecOpus, CodecSpeex, CodecVorbis, CodecUnknown]

def namedQualities : List ChunkQuality :=
  [ChunkQualityLoFi, ChunkQualityMidFi, ChunkQualityHiFi, ChunkQualityUnknown]

/-- Freshness of minted UUIDs: every `UUID.minted` value reachable in the
state has an index below the mint counter. -/
def MintedOk (t : SessionTracker) : Prop :=
  (∀ k, UUID.minted k ∈ keysOf t.sessions → k < t.nextMint) ∧
  (∀ k, UUID.minted k ∈ keysOf t.folded → k < t.nextMint) ∧
  (∀ c u, (c, u) ∈ t.icecastSessions → ∃ k, u = UUID.minted k ∧ k < t.nextMint)

/-- The two store invariants of spec I5: every icecast map entry points at
a live Icecast session carrying that client id, and every live Icecast
session has its map entry. -/
def IceMapOk (t : SessionTracker) : Prop :=
  (∀ c u, (c, u) ∈ t.icecastSessions →
     ∃ s, alookup u t.sessions = some s ∧ s.Source = EventSourceIceCast ∧ s.icecastID = c) ∧
  (∀ u s, (u, s) ∈ t.sessions → s.Source = EventSourceIceCast →
     alookup s.icecastID t.icecastSessions = some u)

/-- Invariant bundle preserved by every tracker input. -/
def Inv (t : SessionTracker) : Prop :=
  (keysOf t.sessions).Nodup ∧
  (keysOf t.icecastSessions).Nodup ∧
  MintedOk t ∧
  IceMapOk t ∧
  (∀ u, u ∈ keysOf t.sessions → u ∈ keysOf t.folded) ∧
  t.flushedRows.length + t.errSessions + t.sessions.length = t.creations

/-- Extra invariant of reap-free runs: every resolved UUID is still a live
key, and the number of creations equals the store size. -/
def NoReapInv (t : SessionTracker) : Prop :=
  (∀ u, u ∈ keysOf t.folded → u ∈ keysOf t.sessions) ∧
  t.creations = t.sessions.length

/-- Accumulator invariant (spec I3): each live session's total bytes is
the sum of the chunk sizes of the events resolved to its UUID. -/
def BytesOk (t : SessionTracker) : Prop :=
  ∀ p ∈ t.sessions,
    p.2.TotalBytes =
      ((t.folded.filter (fun q => decide (q.1 = p.1))).map (fun q => q.2.ChunkSize)).sum

/-- Lifecycle invariant (spec I2) relative to the events still to be
folded: start never exceeds last-active, and last-active never exceeds a
future event's timestamp. -/
def TimeOk (t : SessionTracker) (future : List ChunkEvent) : Prop :=
  ∀ p ∈ t.sessions,
    p.2.StartTime ≤ p.2.LastActive ∧ ∀ e ∈ future, p.2.LastActive ≤ e.Time

/-- Event timestamps delivered in non-decreasing order. -/
def chron (evs : List ChunkEvent) : Prop :=
  evs.Pairwise (fun a b => a.Time ≤ b.Time)

/-! ## Concrete inputs used by witnesses and counterexamples -/

def envC : Env :=
  { uuidParse := fun s => if s = "a" then some 1 else none,
    netParseIP := fun s => some s,
    uaParse := fun _ => { browser := "B", browserVersion := "V", device := "D", os := "O" } }

def e1C : ChunkEvent :=
  { Time := 10, Path := "/radio1/mp3_hifi_1700000000_6.000_42.ts", IP := "10.0.0.1:55555",
    UserAgent := "M", Referer := "", SID := "a", UID := "b", ChunkSize := 5,
    Source := EventSourceHLS, IcecastID := 0, Mount := "" }

def e2C : ChunkEvent := { e1C with Time := 3, ChunkSize := 7 }

def dummySession : Session :=
  { SID := uuidNil, UID := uuidNil, Source := EventSourceUnknown, StartTime := 0,
    LastActive := 0, TotalBytes := 0, Codec := CodecUnknown,
    Quality := ChunkQualityUnknown, IP := none, Referer := "", UABrowser := "",
    UABrowserVersion := "", UADevice := "", UAOS := "", Duration := 0,
    Mount := "", icecastID := 0 }

/-- An HLS event whose chunk basename has four underscore-separated
tokens (fewer than the documented five). -/
def e8C : ChunkEvent := { e1C with Path := "/radio1/mp3_hifi_123_6", SID := "" }

/-- An HLS event whose chunk basename has a single token. -/
def e8W : ChunkEvent := { e1C with Path := "/radio1/chunk.ts", SID := "" }

/-- A tracker whose ingress channel has been closed by Shutdown. -/
def closedStC : SessionTracker := { initTracker 4 60 86400 with closed := true }

/-- A stand-in for a uuid.New().String() value minted by the HLS
handler. -/
def mintedC : String := "f47ac10b-58cc-0372-8567-0e02b2c3d479"

/-- C6 counterexample trace: an HLS session is created, expires on a
reaper tick (one row flushed), and the same textual SID then creates a
second session, flushed at shutdown. -/
def acts6 : List Act :=
  [Act.submit e1C, Act.deq, Act.reapTick 100 true,
   Act.submit { e1C with Time := 101 }, Act.deq]

def fin6 : SessionTracker := shutdownRun envC true (runActs envC (initTracker 10 10 86400) acts6)

/-- First Icecast callback for client 7. -/
def ei1C : ChunkEvent :=
  { Time := 0, Path := "", IP := "1.2.3.4", UserAgent := "M", Referer := "", SID := "",
    UID := "", ChunkSize := 0, Source := EventSourceIceCast, IcecastID := 7, Mount := "m" }

/-- A small concrete store used by the C5 and C7 witnesses: one idle HLS
session, one fresh HLS session, one single-event Icecast session. -/
def s5a : Session :=
  { dummySession with
    SID := UUID.parsed 1, Source := EventSourceHLS, StartTime := 0,
    LastActive := 20, TotalBytes := 3, Mount := "a" }

def s5b : Session :=
  { dummySession with
    SID := UUID.parsed 2, Source := EventSourceHLS, StartTime := 90,
    LastActive := 95, TotalBytes := 4, Mount := "a" }

def s5c : Session :=
  { dummySession with
    SID := UUID.minted 0, Source := EventSourceIceCast, StartTime := 50,
    LastActive := 50, Mount := "b", icecastID := 7 }

def st5 : SessionTracker :=
  { initTracker 10 60 86400 with
    sessions := [(UUID.parsed 1, s5a), (UUID.parsed 2, s5b), (UUID.minted 0, s5c)],
    icecastSessions := [(7, UUID.minted 0)], nextMint := 1 }

/-! ## Association-list lemmas -/

theorem alookup_eq_none_iff {α β : Type} [DecidableEq α] (k : α) (l : List (α × β)) :
    alookup k l = none ↔ k ∉ keysOf l := by
  induction l with
  | nil => simp [alookup, keysOf]
  | cons p t ih =>
      by_cases h : p.1 = k
      · subst h
        simp [alookup, keysOf]
      · simp only [alookup, keysOf, List.map_cons, List.mem_cons, if_neg h] at ih ⊢
        rw [ih]
        constructor
        · intro hk hc
          rcases hc with hc | hc
          · exact h hc.symm
          · exact hk hc
        · intro hk hc
          exact hk (Or.inr hc)

theorem alookup_mem {α β : Type} [DecidableEq α] {k : α} {v : β} {l : List (α × β)}
    (h : alookup k l = some v) : (k, v) ∈ l := by
  induction l with
  | nil => simp [alookup] at h
  | cons p t ih =>
      simp only [alookup] at h
      split_ifs at h with hp
      · cases h
        rcases p with ⟨a, b⟩
        cases hp
        simp
      · exact List.mem_cons_of_mem _ (ih h)

theorem mem_keysOf_of_mem {α β : Type} {p : α × β} {l : List (α × β)}
    (h : p ∈ l) : p.1 ∈ keysOf l := List.mem_map_of_mem Prod.fst h

theorem alookup_of_mem_nodup {α β : Type} [DecidableEq α] {k : α} {v : β} {l : List (α × β)}
    (hn : (keysOf l).Nodup) (h : (k, v) ∈ l) : alookup k l = some v := by
  induction l with
  | nil => simp at h
  | cons p t ih =>
      simp only [keysOf, List.map_cons, List.nodup_cons] at hn
      rcases List.mem_cons.mp h with h | h
      · subst h
        simp [alookup]
      · have hk : p.1 ≠ k := by
          intro he
          exact hn.1 (he ▸ mem_keysOf_of_mem h)
        simp [alookup, hk, ih hn.2 h]

theorem alookup_isSome_of_mem_keys {α β : Type} [DecidableEq α] {k : α} {l : List (α × β)}
    (h : k ∈ keysOf l) : ∃ v, alookup k l = some v := by
  rcases hl : alookup k l with _ | v
  · exact absurd ((alookup_eq_none_iff k l).mp hl) (by simp [h])
  · exact ⟨v, rfl⟩

theorem alookup_aupsert_self {α β : Type} [DecidableEq α] (k : α) (v : β) (l : List (α × β)) :
    alookup k (aupsert k v l) = some v := by
  induction l with
  | nil => simp [aupsert, alookup]
  | cons p t ih =>
      by_cases h : p.1 = k
      · simp [aupsert, h, alookup]
      · simp [aupsert, h, alookup, ih]

theorem alookup_aupsert_ne {α β : Type} [DecidableEq α] {k k' : α} (v : β) (l : List (α × β))
    (h : k' ≠ k) : alookup k' (aupsert k v l) = alookup k' l := by
  have hk : ¬ k = k' := fun he => h he.symm
  induction l with
  | nil => simp [aupsert, alookup, hk]
  | cons p t ih =>
      by_cases hp : p.1 = k
      · subst hp
        simp [aupsert, alookup, hk]
      · simp [aupsert, hp, alookup, ih]

theorem keysOf_aupsert_mem {α β : Type} [DecidableEq α] {k : α} (v : β) {l : List (α × β)}
    (h : k ∈ keysOf l) : keysOf (aupsert k v l) = keysOf l := by
  induction l with
  | nil => simp [keysOf] at h
  | cons p t ih =>
      by_cases hp : p.1 = k
      · simp [aupsert, hp, keysOf]
      · have hmem : k = p.1 ∨ k ∈ keysOf t := by
          simpa [keysOf] using h
        have ht : k ∈ keysOf t := by
          rcases hmem with h1 | h1
          · exact absurd h1.symm hp
          · exact h1
        have ihh := ih ht
        simp only [aupsert, if_neg hp, keysOf, List.map_cons]
        simp only [keysOf] at ihh
        rw [ihh]

theorem length_aupsert_mem {α β : Type} [DecidableEq α] {k : α} (v : β) {l : List (α × β)}
    (h : k ∈ keysOf l) : (aupsert k v l).length = l.length := by
  have := keysOf_aupsert_mem (β := β) v h
  have h1 : (keysOf (aupsert k v l)).length = (keysOf l).length := by rw [this]
  simpa [keysOf] using h1

theorem mem_aupsert_elim {α β : Type} [DecidableEq α] {k : α} {v : β} {p : α × β}
    {l : List (α × β)} (h : p ∈ aupsert k v l) : p = (k, v) ∨ p ∈ l := by
  induction l with
  | nil => simpa [aupsert] using h
  | cons q t ih =>
      by_cases hq : q.1 = k
      · simp only [aupsert, if_pos hq] at h
        rcases List.mem_cons.mp h with h | h
        · exact Or.inl h
        · exact Or.inr (List.mem_cons_of_mem _ h)
      · simp only [aupsert, if_neg hq] at h
        rcases List.mem_cons.mp h with h | h
        · exact Or.inr (h ▸ List.mem_cons_self _ _)
        · rcases ih h with h | h
          · exact Or.inl h
          · exact Or.inr (List.mem_cons_of_mem _ h)

theorem mem_aupsert_of_ne {α β : Type} [DecidableEq α] {k : α} (v : β) {p : α × β}
    {l : List (α × β)} (h : p ∈ l) (hne : p.1 ≠ k) : p ∈ aupsert k v l := by
  induction l with
  | nil => simp at h
  | cons q t ih =>
      by_cases hq : q.1 = k
      · simp only [aupsert, if_pos hq]
        rcases List.mem_cons.mp h with h | h
        · exact absurd (h ▸ hq) hne
        · exact List.mem_cons_of_mem _ h
      · simp only [aupsert, if_neg hq]
        rcases List.mem_cons.mp h with h | h
        · exact h ▸ List.mem_cons_self _ _
        · exact List.mem_cons_of_mem _ (ih h)

theorem alookup_append {α β : Type} [DecidableEq α] (k : α) (l1 l2 : List (α × β)) :
    alookup k (l1 ++ l2) =
      match alookup k l1 with
      | some v => some v
      | none => alookup k l2 := by
  induction l1 with
  | nil => simp [alookup]
  | cons p t ih =>
      by_cases h : p.1 = k
      · simp [alookup, h]
      · simp [alookup, h, ih]

theorem mem_aerase_sub {α β : Type} [DecidableEq α] {k : α} {p : α × β} {l : List (α × β)}
    (h : p ∈ aerase k l) : p ∈ l := by
  induction l with
  | nil => simp [aerase] at h
  | cons q t ih =>
      by_cases hq : q.1 = k
      · simp only [aerase, if_pos hq] at h
        exact List.mem_cons_of_mem _ h
      · simp only [aerase, if_neg hq] at h
        rcases List.mem_cons.mp h with h | h
        · exact h ▸ List.mem_cons_self _ _
        · exact List.mem_cons_of_mem _ (ih h)

theorem keysOf_aerase_sublist {α β : Type} [DecidableEq α] (k : α) (l : List (α × β)) :
    (keysOf (aerase k l)).Sublist (keysOf l) := by
  induction l with
  | nil => simp [aerase]
  | cons q t ih =>
      by_cases hq : q.1 = k
      · simp only [aerase, if_pos hq, keysOf, List.map_cons]
        exact List.sublist_cons_of_sublist _ (List.Sublist.refl _)
      · simp only [aerase, if_neg hq, keysOf, List.map_cons]
        exact List.Sublist.cons₂ _ ih

theorem nodup_keysOf_aerase {α β : Type} [DecidableEq α] {k : α} {l : List (α × β)}
    (h : (keysOf l).Nodup) : (keysOf (aerase k l)).Nodup :=
  (keysOf_aerase_sublist k l).nodup h

theorem alookup_aerase_self {α β : Type} [DecidableEq α] {k : α} {l : List (α × β)}
    (h : (keysOf l).Nodup) : alookup k (aerase k l) = none := by
  induction l with
  | nil => simp [aerase, alookup]
  | cons q t ih =>
      simp only [keysOf, List.map_cons, List.nodup_cons] at h
      by_cases hq : q.1 = k
      · simp only [aerase, if_pos hq]
        rw [alookup_eq_none_iff]
        exact hq ▸ h.1
      · simp [aerase, hq, alookup, ih h.2]

theorem alookup_aerase_ne {α β : Type} [DecidableEq α] {k k' : α} (l : List (α × β))
    (h : k' ≠ k) : alookup k' (aerase k l) = alookup k' l := by
  have hk : ¬ k = k' := fun he => h he.symm
  induction l with
  | nil => simp [aerase]
  | cons q t ih =>
      by_cases hq : q.1 = k
      · subst hq
        simp [aerase, alookup, hk]
      · simp [aerase, hq, alookup, ih]

theorem length_filter_add_length_filter_not {α : Type} (l : List α) (p : α → Bool) :
    (l.filter p).length + (l.filter (fun x => !(p x))).length = l.length := by
  induction l with
  | nil => simp
  | cons a t ih =>
      by_cases h : p a = true
      · simp [List.filter_cons, h]
        omega
      · have h' : p a = false := by
          cases hp : p a
          · rfl
          · exact absurd hp h
        simp [List.filter_cons, h']
        omega

theorem keysOf_filter_sublist {α β : Type} (p : α × β → Bool) (l : List (α × β)) :
    (keysOf (l.filter p)).Sublist (keysOf l) :=
  (List.filter_sublist l).map Prod.fst

theorem alookup_filter_of_pos {α β : Type} [DecidableEq α] {k : α} {v : β} {l : List (α × β)}
    {p : α × β → Bool} (hn : (keysOf l).Nodup) (h : alookup k l = some v)
    (hp : p (k, v) = true) : alookup k (l.filter p) = some v :=
  alookup_of_mem_nodup ((keysOf_filter_sublist p l).nodup hn)
    (List.mem_filter.mpr ⟨alookup_mem h, hp⟩)

theorem alookup_filter_of_neg {α β : Type} [DecidableEq α] {k : α} {v : β} {l : List (α × β)}
    {p : α × β → Bool} (hn : (keysOf l).Nodup) (h : alookup k l = some v)
    (hp : p (k, v) = false) : alookup k (l.filter p) = none := by
  rw [alookup_eq_none_iff]
  intro hk
  rcases List.mem_map.mp hk with ⟨q, hq, hqk⟩
  rcases List.mem_filter.mp hq with ⟨hql, hqp⟩
  have : q = (k, v) := by
    rcases q with ⟨a, b⟩
    cases hqk
    have := alookup_of_mem_nodup hn hql
    rw [h] at this
    cases this
    rfl
  rw [this] at hqp
  rw [hqp] at hp
  cases hp

theorem filter_length_pos_iff {α : Type} (l : List α) (p : α → Bool) :
    0 < (l.filter p).length ↔ ∃ x ∈ l, p x = true := by
  rw [List.length_pos]
  constructor
  · intro h
    rcases List.exists_mem_of_ne_nil _ h with ⟨x, hx⟩
    rcases List.mem_filter.mp hx with ⟨h1, h2⟩
    exact ⟨x, h1, h2⟩
  · rintro ⟨x, hx, hp⟩ hnil
    have : x ∈ l.filter p := List.mem_filter.mpr ⟨hx, hp⟩
    rw [hnil] at this
    simp at this

/-! ## Claim C1 -/

/-- Claim C1 (code bug evidence): the claim states that every flushed
session row yields exactly one value per entry of the ordered column list,
including the twenty ua boolean flags.  In the code `sessionColumns`
names 34 columns while `Session.row` yields only 14 values (the Session
struct has no ua boolean fields at all), so every row handed to the bulk
copy is 20 values short of the declared column list, contradicting row()'s
own doc comment ("matching sessionColumns order"). -/
theorem sessionColumns_row_arity_mismatch :
    sessionColumns.length = 34 ∧ ∀ s : Session, (Session.row s).length = 14 :=
  ⟨rfl, fun _ => rfl⟩

/-! ## Claim C2 -/

/-- Claim C2 counterexample: a Send that races with Shutdown can execute
after Shutdown has closed the ingress channel; the send case of the
select on a closed channel is always ready and panics (modelled as
`none`), so Send does not return a boolean there — refuting "never blocks
or fails in any other way, including calls that race with Shutdown". -/
theorem send_on_closed_ingress_panics : SessionTracker.Send closedStC e1C = none := rfl

/-- Claim C2 (amended): while the ingress is open, Send is a non-blocking
enqueue — it returns true and appends the event when the queue is below
capacity, and returns false and increments the dropped-event counter when
the queue is full, never failing in any other way. -/
theorem send_nonblocking_enqueue (t : SessionTracker) (e : ChunkEvent) (h : t.closed = false) :
    (t.queue.length < t.cap →
        t.Send e = some (true, { t with queue := t.queue ++ [e] })) ∧
    (¬ t.queue.length < t.cap →
        t.Send e = some (false, { t with drops := t.drops + 1 })) := by
  constructor
  · intro hq
    simp [SessionTracker.Send, h, hq]
  · intro hq
    simp [SessionTracker.Send, h, hq]

/-- Witness for `send_nonblocking_enqueue` at concrete states: an empty
tracker of capacity 4 accepts the event; a tracker of capacity 0 rejects
it and bumps the drop counter. -/
theorem send_nonblocking_enqueue_witness :
    (initTracker 4 60 86400).Send e1C =
        some (true, { initTracker 4 60 86400 with queue := [e1C] }) ∧
    (initTracker 0 60 86400).Send e1C =
        some (false, { initTracker 0 60 86400 with drops := 1 }) := by
  constructor
  · have h := (send_nonblocking_enqueue (initTracker 4 60 86400) e1C rfl).1 (by decide)
    simpa using h
  · have h := (send_nonblocking_enqueue (initTracker 0 60 86400) e1C rfl).2 (by decide)
    simpa using h

/-! ## Claim C8 -/

/-- Claim C8 counterexample: an HLS event whose basename splits into four
underscore-separated tokens (fewer than five) still gets its codec and
quality parsed from the first two tokens — codec is mp3, not Unknown. -/
theorem short_filename_parses_codec :
    (splitChar (Char.ofNat 95) (filepathBase e8C.Path)).length = 4 ∧
    (newSessionFromEvent envC e8C).Codec = CodecMP3 ∧
    ¬ (newSessionFromEvent envC e8C).Codec = CodecUnknown ∧
    ¬ (newSessionFromEvent envC e8C).Quality = ChunkQualityUnknown := by
  decide

/-- Claim C8 (amended): codec and quality fall back to Unknown only when
the path is empty or its basename splits into fewer than two tokens; the
Session is still created (start, last-active and total bytes taken from
the event) in every case. -/
theorem short_filename_amended (env : Env) (e : ChunkEvent)
    (h : e.Path = "" ∨ (splitChar (Char.ofNat 95) (filepathBase e.Path)).length < 2) :
    (newSessionFromEvent env e).Codec = CodecUnknown ∧
    (newSessionFromEvent env e).Quality = ChunkQualityUnknown ∧
    (newSessionFromEvent env e).StartTime = e.Time ∧
    (newSessionFromEvent env e).LastActive = e.Time ∧
    (newSessionFromEvent env e).TotalBytes = e.ChunkSize := by
  rcases h with h | h
  · simp [newSessionFromEvent, h]
  · by_cases hp : e.Path = ""
    · simp [newSessionFromEvent, hp]
    · have h2 : ¬ (splitChar (Char.ofNat 95) (filepathBase e.Path)).length ≥ 2 := by omega
      simp [newSessionFromEvent, hp, h2]

/-- Witness for `short_filename_amended`: a basename with a single token
yields Unknown codec and quality while creating the session. -/
theorem short_filename_amended_witness :
    (newSessionFromEvent envC e8W).Codec = CodecUnknown ∧
    (newSessionFromEvent envC e8W).Quality = ChunkQualityUnknown ∧
    (newSessionFromEvent envC e8W).StartTime = e8W.Time ∧
    (newSessionFromEvent envC e8W).LastActive = e8W.Time ∧
    (newSessionFromEvent envC e8W).TotalBytes = e8W.ChunkSize :=
  short_filename_amended envC e8W (Or.inr (by decide))

/-! ## Claim C9 -/

/-- Claim C9: every named Codec and ChunkQuality value round-trips
through its string form, Unknown prints as "unknown", and parsing any
token outside the fixed name lists yields Unknown. -/
theorem enum_string_roundtrip :
    (∀ c ∈ namedCodecs, codecFromString (codecToString c) = c) ∧
    (∀ q ∈ namedQualities, chunkQualityFromString (chunkQualityToString q) = q) ∧
    codecToString CodecUnknown = "unknown" ∧
    chunkQualityToString ChunkQualityUnknown = "unknown" ∧
    (∀ s, s ∉ CodecNames → codecFromString s = CodecUnknown) ∧
    (∀ s, s ∉ ChunkQualityNames → chunkQualityFromString s = ChunkQualityUnknown) := by
  refine ⟨?_, ?_, rfl, rfl, ?_, ?_⟩
  · intro c hc
    fin_cases hc <;> rfl
  · intro q hq
    fin_cases hq <;> rfl
  · intro s hs
    simp only [CodecNames, List.mem_cons, List.not_mem_nil, or_false] at hs
    push_neg at hs
    obtain ⟨h1, h2, h3, h4, h5, h6, h7, h8, h9⟩ := hs
    simp [codecFromString, h1, h2, h3, h4, h5, h6, h7, h8, h9]
  · intro s hs
    simp only [ChunkQualityNames, List.mem_cons, List.not_mem_nil, or_false] at hs
    push_neg at hs
    obtain ⟨h1, h2, h3⟩ := hs
    simp [chunkQualityFromString, h1, h2, h3]

/-- Witness for `enum_string_roundtrip` at concrete enum values and
concrete unrecognized tokens. -/
theorem enum_string_roundtrip_witness :
    codecFromString (codecToString CodecMP3) = CodecMP3 ∧
    chunkQualityFromString (chunkQualityToString ChunkQualityHiFi) = ChunkQualityHiFi ∧
    codecFromString "m4a" = CodecUnknown ∧
    chunkQualityFromString "ultra" = ChunkQualityUnknown :=
  ⟨enum_string_roundtrip.1 CodecMP3 (by decide),
   enum_string_roundtrip.2.1 ChunkQualityHiFi (by decide),
   enum_string_roundtrip.2.2.2.2.1 "m4a" (by decide),
   enum_string_roundtrip.2.2.2.2.2 "ultra" (by decide)⟩

/-! ## Claim C10 -/

/-- Claim C10 counterexample: when the request carries no session-id
query parameter (Query().Get returns the empty string) the submitted
event's SID is a freshly minted uuid.New().String(), not empty. -/
theorem hls_sid_minted_not_empty :
    (hlsChunkEvent 0 "/radio1/c.ts" 100 "1.2.3.4:5" "UA" "r" "" mintedC "u").SID = mintedC ∧
    ¬ (hlsChunkEvent 0 "/radio1/c.ts" 100 "1.2.3.4:5" "UA" "r" "" mintedC "u").SID = "" := by
  decide

/-- Claim C10 (amended): the HLS handler submits an event whose SID is
exactly the URL-query session-id value when it is present and non-empty,
and a freshly generated UUID string otherwise; the event carries the
HLS source tag, the request time and the served chunk size. -/
theorem hls_sid_amended (now : Int) (path : String) (size : Int)
    (remoteAddr userAgent referer querySid minted uid : String) :
    (querySid ≠ "" →
        (hlsChunkEvent now path size remoteAddr userAgent referer querySid minted uid).SID
          = querySid) ∧
    (querySid = "" →
        (hlsChunkEvent now path size remoteAddr userAgent referer querySid minted uid).SID
          = minted) ∧
    (hlsChunkEvent now path size remoteAddr userAgent referer querySid minted uid).Source
      = EventSourceHLS ∧
    (hlsChunkEvent now path size remoteAddr userAgent referer querySid minted uid).Time = now ∧
    (hlsChunkEvent now path size remoteAddr userAgent referer querySid minted uid).ChunkSize
      = size := by
  refine ⟨?_, ?_, rfl, rfl, rfl⟩
  · intro h
    simp [hlsChunkEvent, hlsResolveSid, h]
  · intro h
    simp [hlsChunkEvent, hlsResolveSid, h]

/-- Witness for `hls_sid_amended` at a non-empty and an empty query
value. -/
theorem hls_sid_amended_witness :
    (hlsChunkEvent 0 "/radio1/c.ts" 100 "ip" "ua" "r" "qsid" mintedC "u").SID = "qsid" ∧
    (hlsChunkEvent 0 "/radio1/c.ts" 100 "ip" "ua" "r" "" mintedC "u").SID = mintedC :=
  ⟨(hls_sid_amended 0 "/radio1/c.ts" 100 "ip" "ua" "r" "qsid" mintedC "u").1 (by decide),
   (hls_sid_amended 0 "/radio1/c.ts" 100 "ip" "ua" "r" "" mintedC "u").2.1 rfl⟩

/-! ## Further list lemmas -/

theorem keysOf_append {α β : Type} (l1 l2 : List (α × β)) :
    keysOf (l1 ++ l2) = keysOf l1 ++ keysOf l2 :=
  List.map_append _ _ _

theorem nodup_concat_of_not_mem {α : Type} {l : List α} {a : α}
    (hn : l.Nodup) (ha : a ∉ l) : (l ++ [a]).Nodup := by
  rw [List.nodup_append]
  refine ⟨hn, List.nodup_singleton a, ?_⟩
  intro x hx hxa
  rw [List.mem_singleton] at hxa
  exact ha (hxa ▸ hx)

theorem keysOf_aupsert_not_mem {α β : Type} [DecidableEq α] {k : α} (v : β)
    {l : List (α × β)} (h : k ∉ keysOf l) : keysOf (aupsert k v l) = keysOf l ++ [k] := by
  induction l with
  | nil => simp [aupsert, keysOf]
  | cons p t ih =>
      have hnotor : ¬ (k = p.1 ∨ k ∈ keysOf t) := by
        intro hor
        exact h (List.mem_cons.mpr hor)
      have hp : ¬ p.1 = k := fun he => hnotor (Or.inl he.symm)
      have ht : k ∉ keysOf t := fun hh => hnotor (Or.inr hh)
      have ihh := ih ht
      simp only [keysOf] at ihh ⊢
      simp only [aupsert, if_neg hp, List.map_cons, List.cons_append]
      rw [ihh]

theorem key_unique {α β : Type} [DecidableEq α] {k : α} {a b : β} {l : List (α × β)}
    (hn : (keysOf l).Nodup) (ha : (k, a) ∈ l) (hb : (k, b) ∈ l) : a = b := by
  have h1 := alookup_of_mem_nodup hn ha
  have h2 := alookup_of_mem_nodup hn hb
  rw [h1] at h2
  cases h2
  rfl

theorem mem_iceErase_sub {q : Int × UUID} :
    ∀ (ex : List (UUID × Session)) (m : List (Int × UUID)),
      q ∈ iceErase ex m → q ∈ m := by
  intro ex
  induction ex with
  | nil =>
      intro m h
      simpa [iceErase] using h
  | cons p rest ih =>
      intro m h
      simp only [iceErase] at h
      by_cases hp : p.2.Source = EventSourceIceCast
      · rw [if_pos hp] at h
        exact mem_aerase_sub (ih _ h)
      · rw [if_neg hp] at h
        exact ih _ h

theorem nodup_iceErase :
    ∀ (ex : List (UUID × Session)) (m : List (Int × UUID)),
      (keysOf m).Nodup → (keysOf (iceErase ex m)).Nodup := by
  intro ex
  induction ex with
  | nil =>
      intro m h
      simpa [iceErase] using h
  | cons p rest ih =>
      intro m h
      simp only [iceErase]
      by_cases hp : p.2.Source = EventSourceIceCast
      · rw [if_pos hp]
        exact ih _ (nodup_keysOf_aerase h)
      · rw [if_neg hp]
        exact ih _ h

theorem alookup_iceErase_of_none {c : Int} :
    ∀ (ex : List (UUID × Session)) (m : List (Int × UUID)),
      alookup c m = none → alookup c (iceErase ex m) = none := by
  intro ex m h
  rw [alookup_eq_none_iff] at h ⊢
  intro hc
  rcases List.mem_map.mp hc with ⟨q, hq, hqc⟩
  exact h (hqc ▸ mem_keysOf_of_mem (mem_iceErase_sub _ _ hq))

theorem alookup_iceErase_of_mem {q : UUID × Session} :
    ∀ (ex : List (UUID × Session)) (m : List (Int × UUID)),
      (keysOf m).Nodup → q ∈ ex → q.2.Source = EventSourceIceCast →
      alookup q.2.icecastID (iceErase ex m) = none := by
  intro ex
  induction ex with
  | nil =>
      intro m _ hq
      simp at hq
  | cons p rest ih =>
      intro m hn hq hice
      simp only [iceErase]
      rcases List.mem_cons.mp hq with hq | hq
      · subst hq
        rw [if_pos hice]
        exact alookup_iceErase_of_none _ _ (alookup_aerase_self hn)
      · by_cases hp : p.2.Source = EventSourceIceCast
        · rw [if_pos hp]
          exact ih _ (nodup_keysOf_aerase hn) hq hice
        · rw [if_neg hp]
          exact ih _ hn hq hice

theorem alookup_iceErase_of_not_erased {c : Int} :
    ∀ (ex : List (UUID × Session)) (m : List (Int × UUID)),
      (∀ q ∈ ex, q.2.Source = EventSourceIceCast → q.2.icecastID ≠ c) →
      alookup c (iceErase ex m) = alookup c m := by
  intro ex
  induction ex with
  | nil =>
      intro m _
      simp [iceErase]
  | cons p rest ih =>
      intro m hno
      simp only [iceErase]
      by_cases hp : p.2.Source = EventSourceIceCast
      · rw [if_pos hp]
        rw [ih _ (fun q hq => hno q (List.mem_cons_of_mem _ hq))]
        exact alookup_aerase_ne _ (fun he => hno p (List.mem_cons_self _ _) hp he.symm)
      · rw [if_neg hp]
        exact ih _ (fun q hq => hno q (List.mem_cons_of_mem _ hq))

/-! ## Rewrite lemmas for handleEvent -/

theorem touchSession_fields (e : ChunkEvent) (s : Session) :
    (touchSession e s).Source = s.Source ∧
    (touchSession e s).icecastID = s.icecastID ∧
    (touchSession e s).SID = s.SID ∧
    (touchSession e s).StartTime = s.StartTime ∧
    (touchSession e s).LastActive = e.Time ∧
    (touchSession e s).TotalBytes = s.TotalBytes + e.ChunkSize ∧
    (touchSession e s).Mount = s.Mount := by
  simp [touchSession]

theorem freshSession_fields (env : Env) (e : ChunkEvent) (sid : UUID) :
    (freshSession env e sid).Source = e.Source ∧
    (freshSession env e sid).icecastID = e.IcecastID ∧
    (freshSession env e sid).SID = sid ∧
    (freshSession env e sid).StartTime = e.Time ∧
    (freshSession env e sid).LastActive = e.Time ∧
    (freshSession env e sid).TotalBytes = e.ChunkSize ∧
    (freshSession env e sid).Mount = e.Mount := by
  simp [freshSession, newSessionFromEvent]

theorem applyEvent_update (env : Env) (e : ChunkEvent) (sid : UUID) (t : SessionTracker)
    {s : Session} (h : alookup sid t.sessions = some s) :
    applyEvent env e sid t =
      { t with sessions := aupsert sid (touchSession e s) t.sessions,
               folded := t.folded ++ [(sid, e)] } := by
  unfold applyEvent
  rw [h]

theorem applyEvent_create (env : Env) (e : ChunkEvent) (sid : UUID) (t : SessionTracker)
    (h : alookup sid t.sessions = none) :
    applyEvent env e sid t =
      { t with sessions := t.sessions ++ [(sid, freshSession env e sid)],
               folded := t.folded ++ [(sid, e)],
               creations := t.creations + 1 } := by
  unfold applyEvent
  rw [h]

theorem resolveSID_parsed {env : Env} {e : ChunkEvent} {t : SessionTracker} {n : Nat}
    (h : ¬ e.Source = EventSourceIceCast) (hp : env.uuidParse e.SID = some n) :
    resolveSID env e t = (UUID.parsed n, t) := by
  unfold resolveSID
  rw [if_neg h, hp]

theorem resolveSID_nil {env : Env} {e : ChunkEvent} {t : SessionTracker}
    (h : ¬ e.Source = EventSourceIceCast) (hp : env.uuidParse e.SID = none) :
    resolveSID env e t = (uuidNil, t) := by
  unfold resolveSID
  rw [if_neg h, hp]

theorem resolveSID_hit {env : Env} {e : ChunkEvent} {t : SessionTracker} {u : UUID}
    (h : e.Source = EventSourceIceCast) (hm : alookup e.IcecastID t.icecastSessions = some u) :
    resolveSID env e t = (u, t) := by
  unfold resolveSID
  rw [if_pos h, hm]

theorem resolveSID_miss {env : Env} {e : ChunkEvent} {t : SessionTracker}
    (h : e.Source = EventSourceIceCast) (hm : alookup e.IcecastID t.icecastSessions = none) :
    resolveSID env e t =
      (UUID.minted t.nextMint,
       { t with icecastSessions := aupsert e.IcecastID (UUID.minted t.nextMint) t.icecastSessions,
                nextMint := t.nextMint + 1 }) := by
  unfold resolveSID
  rw [if_pos h, hm]

/-! ## Invariant preservation -/

theorem Inv_applyEvent (env : Env) (e : ChunkEvent) (sid : UUID) (t : SessionTracker)
    (hInv : Inv t)
    (hmint : ∀ k, sid = UUID.minted k → k < t.nextMint)
    (hcr : alookup sid t.sessions = none → ¬ e.Source = EventSourceIceCast) :
    Inv (applyEvent env e sid t) := by
  unfold Inv MintedOk IceMapOk at hInv ⊢
  obtain ⟨h1, h2, ⟨m1, m2, m3⟩, ⟨hf, hb⟩, h5, h6⟩ := hInv
  rcases hl : alookup sid t.sessions with _ | s
  · -- creation of a fresh session
    have hni : ¬ e.Source = EventSourceIceCast := hcr hl
    have hsidnot : sid ∉ keysOf t.sessions := (alookup_eq_none_iff _ _).mp hl
    rw [applyEvent_create env e sid t hl]
    refine ⟨?_, h2, ⟨?_, ?_, m3⟩, ⟨?_, ?_⟩, ?_, ?_⟩
    · show (keysOf (t.sessions ++ [(sid, freshSession env e sid)])).Nodup
      rw [keysOf_append]
      exact nodup_concat_of_not_mem h1 hsidnot
    · intro k hk
      have hk2 : UUID.minted k ∈ keysOf t.sessions ++ [sid] := by
        have := hk
        rw [show keysOf (t.sessions ++ [(sid, freshSession env e sid)])
              = keysOf t.sessions ++ [sid] from by rw [keysOf_append]; rfl] at this
        exact this
      rcases List.mem_append.mp hk2 with hk3 | hk3
      · exact m1 k hk3
      · rw [List.mem_singleton] at hk3
        exact hmint k hk3.symm
    · intro k hk
      have hk2 : UUID.minted k ∈ keysOf t.folded ++ [sid] := by
        have := hk
        rw [show keysOf (t.folded ++ [(sid, e)])
              = keysOf t.folded ++ [sid] from by rw [keysOf_append]; rfl] at this
        exact this
      rcases List.mem_append.mp hk2 with hk3 | hk3
      · exact m2 k hk3
      · rw [List.mem_singleton] at hk3
        exact hmint k hk3.symm
    · intro c u hcu
      rcases hf c u hcu with ⟨s2, hs2, hsrc2, hid2⟩
      refine ⟨s2, ?_, hsrc2, hid2⟩
      show alookup u (t.sessions ++ [(sid, freshSession env e sid)]) = some s2
      rw [alookup_append, hs2]
    · intro u s2 hmem hice
      have hmem2 : (u, s2) ∈ t.sessions ++ [(sid, freshSession env e sid)] := hmem
      rcases List.mem_append.mp hmem2 with hmem3 | hmem3
      · exact hb u s2 hmem3 hice
      · rw [List.mem_singleton, Prod.mk.injEq] at hmem3
        rw [hmem3.2, (freshSession_fields env e sid).1] at hice
        exact absurd hice hni
    · intro u hu
      have hu2 : u ∈ keysOf t.sessions ++ [sid] := by
        have := hu
        rw [show keysOf (t.sessions ++ [(sid, freshSession env e sid)])
              = keysOf t.sessions ++ [sid] from by rw [keysOf_append]; rfl] at this
        exact this
      have target : u ∈ keysOf t.folded ++ [sid] → u ∈ keysOf (t.folded ++ [(sid, e)]) := by
        intro hx
        rw [show keysOf (t.folded ++ [(sid, e)])
              = keysOf t.folded ++ [sid] from by rw [keysOf_append]; rfl]
        exact hx
      apply target
      rcases List.mem_append.mp hu2 with hu3 | hu3
      · exact List.mem_append.mpr (Or.inl (h5 u hu3))
      · exact List.mem_append.mpr (Or.inr hu3)
    · show t.flushedRows.length + t.errSessions
          + (t.sessions ++ [(sid, freshSession env e sid)]).length = t.creations + 1
      rw [List.length_append]
      simp only [List.length_singleton]
      omega
  · -- update of an existing session
    have hsidmem : sid ∈ keysOf t.sessions := mem_keysOf_of_mem (alookup_mem hl)
    rw [applyEvent_update env e sid t hl]
    have hkeys : keysOf (aupsert sid (touchSession e s) t.sessions) = keysOf t.sessions :=
      keysOf_aupsert_mem _ hsidmem
    refine ⟨?_, h2, ⟨?_, ?_, m3⟩, ⟨?_, ?_⟩, ?_, ?_⟩
    · show (keysOf (aupsert sid (touchSession e s) t.sessions)).Nodup
      rw [hkeys]
      exact h1
    · intro k hk
      have hk2 : UUID.minted k ∈ keysOf t.sessions := by
        have := hk
        rw [show keysOf ((aupsert sid (touchSession e s) t.sessions))
              = keysOf t.sessions from hkeys] at this
        exact this
      exact m1 k hk2
    · intro k hk
      have hk2 : UUID.minted k ∈ keysOf t.folded ++ [sid] := by
        have := hk
        rw [show keysOf (t.folded ++ [(sid, e)])
              = keysOf t.folded ++ [sid] from by rw [keysOf_append]; rfl] at this
        exact this
      rcases List.mem_append.mp hk2 with hk3 | hk3
      · exact m2 k hk3
      · rw [List.mem_singleton] at hk3
        exact hmint k hk3.symm
    · intro c u hcu
      rcases hf c u hcu with ⟨s2, hs2, hsrc2, hid2⟩
      by_cases hu : u = sid
      · subst hu
        rw [hl] at hs2
        have hs2e : s2 = s := (Option.some.inj hs2).symm
        rw [hs2e] at hsrc2 hid2
        refine ⟨touchSession e s, ?_, ?_, ?_⟩
        · exact alookup_aupsert_self _ _ _
        · rw [(touchSession_fields e s).1]
          exact hsrc2
        · rw [(touchSession_fields e s).2.1]
          exact hid2
      · refine ⟨s2, ?_, hsrc2, hid2⟩
        show alookup u (aupsert sid (touchSession e s) t.sessions) = some s2
        rw [alookup_aupsert_ne _ _ hu]
        exact hs2
    · intro u s2 hmem hice
      have hmem2 : (u, s2) ∈ aupsert sid (touchSession e s) t.sessions := hmem
      rcases mem_aupsert_elim hmem2 with hmem3 | hmem3
      · rw [Prod.mk.injEq] at hmem3
        have hs2 : s2 = touchSession e s := hmem3.2
        rw [hs2, (touchSession_fields e s).2.1]
        rw [hs2, (touchSession_fields e s).1] at hice
        rw [hmem3.1]
        exact hb sid s (alookup_mem hl) hice
      · exact hb u s2 hmem3 hice
    · intro u hu
      have hu2 : u ∈ keysOf t.sessions := by
        have := hu
        rw [show keysOf ((aupsert sid (touchSession e s) t.sessions))
              = keysOf t.sessions from hkeys] at this
        exact this
      have target : u ∈ keysOf t.folded ++ [sid] → u ∈ keysOf (t.folded ++ [(sid, e)]) := by
        intro hx
        rw [show keysOf (t.folded ++ [(sid, e)])
              = keysOf t.folded ++ [sid] from by rw [keysOf_append]; rfl]
        exact hx
      exact target (List.mem_append.mpr (Or.inl (h5 u hu2)))
    · show t.flushedRows.length + t.errSessions
          + (aupsert sid (touchSession e s) t.sessions).length = t.creations
      rw [length_aupsert_mem _ hsidmem]
      exact h6

theorem Inv_handleEvent (env : Env) (e : ChunkEvent) (t : SessionTracker) (hInv : Inv t) :
    Inv (handleEvent env e t) := by
  have hc := hInv
  unfold Inv MintedOk IceMapOk at hc
  obtain ⟨h1, h2, ⟨m1, m2, m3⟩, ⟨hf, hb⟩, h5, h6⟩ := hc
  by_cases hsrc : e.Source = EventSourceIceCast
  · rcases hm : alookup e.IcecastID t.icecastSessions with _ | u
    · -- first sighting of the client id: mint a fresh UUID and create
      unfold handleEvent
      rw [resolveSID_miss hsrc hm]
      have hsidnot : UUID.minted t.nextMint ∉ keysOf t.sessions := by
        intro hk
        exact absurd (m1 t.nextMint hk) (lt_irrefl _)
      have hlnone : alookup (UUID.minted t.nextMint)
          ({ t with icecastSessions := aupsert e.IcecastID (UUID.minted t.nextMint) t.icecastSessions,
                    nextMint := t.nextMint + 1 } : SessionTracker).sessions = none := by
        show alookup (UUID.minted t.nextMint) t.sessions = none
        exact (alookup_eq_none_iff _ _).mpr hsidnot
      rw [applyEvent_create _ _ _ _ hlnone]
      have hcnot : e.IcecastID ∉ keysOf t.icecastSessions := (alookup_eq_none_iff _ _).mp hm
      unfold Inv MintedOk IceMapOk
      refine ⟨?_, ?_, ⟨?_, ?_, ?_⟩, ⟨?_, ?_⟩, ?_, ?_⟩
      · show (keysOf (t.sessions
            ++ [(UUID.minted t.nextMint,
                 freshSession env e (UUID.minted t.nextMint))])).Nodup
        rw [keysOf_append]
        exact nodup_concat_of_not_mem h1 hsidnot
      · show (keysOf (aupsert e.IcecastID (UUID.minted t.nextMint) t.icecastSessions)).Nodup
        rw [keysOf_aupsert_not_mem _ hcnot]
        exact nodup_concat_of_not_mem h2 hcnot
      · intro k hk
        have hk2 : UUID.minted k ∈ keysOf t.sessions ++ [UUID.minted t.nextMint] := by
          have := hk
          rw [show keysOf (t.sessions
                ++ [(UUID.minted t.nextMint,
                     freshSession env e (UUID.minted t.nextMint))])
                = keysOf t.sessions ++ [UUID.minted t.nextMint] from by
              rw [keysOf_append]; rfl] at this
          exact this
        rcases List.mem_append.mp hk2 with hk3 | hk3
        · exact Nat.lt_succ_of_lt (m1 k hk3)
        · rw [List.mem_singleton] at hk3
          cases hk3
          exact Nat.lt_succ_self _
      · intro k hk
        have hk2 : UUID.minted k ∈ keysOf t.folded ++ [UUID.minted t.nextMint] := by
          have := hk
          rw [show keysOf (t.folded ++ [(UUID.minted t.nextMint, e)])
                = keysOf t.folded ++ [UUID.minted t.nextMint] from by
              rw [keysOf_append]; rfl] at this
          exact this
        rcases List.mem_append.mp hk2 with hk3 | hk3
        · exact Nat.lt_succ_of_lt (m2 k hk3)
        · rw [List.mem_singleton] at hk3
          cases hk3
          exact Nat.lt_succ_self _
      · intro c u hcu
        have hcu2 : (c, u) ∈ aupsert e.IcecastID (UUID.minted t.nextMint) t.icecastSessions := hcu
        rcases mem_aupsert_elim hcu2 with hcu3 | hcu3
        · rw [Prod.mk.injEq] at hcu3
          exact ⟨t.nextMint, hcu3.2, Nat.lt_succ_self _⟩
        · rcases m3 c u hcu3 with ⟨k, hk, hlt⟩
          exact ⟨k, hk, Nat.lt_succ_of_lt hlt⟩
      · intro c u hcu
        have hcu2 : (c, u) ∈ aupsert e.IcecastID (UUID.minted t.nextMint) t.icecastSessions := hcu
        rcases mem_aupsert_elim hcu2 with hcu3 | hcu3
        · rw [Prod.mk.injEq] at hcu3
          refine ⟨freshSession env e (UUID.minted t.nextMint), ?_, ?_, ?_⟩
          · show alookup u (t.sessions
                ++ [(UUID.minted t.nextMint,
                     freshSession env e (UUID.minted t.nextMint))])
              = some (freshSession env e (UUID.minted t.nextMint))
            rw [hcu3.2, alookup_append,
               (alookup_eq_none_iff (UUID.minted t.nextMint) t.sessions).mpr hsidnot]
            simp [alookup]
          · rw [(freshSession_fields env e (UUID.minted t.nextMint)).1]
            exact hsrc
          · rw [(freshSession_fields env e (UUID.minted t.nextMint)).2.1]
            exact hcu3.1.symm
        · rcases hf c u hcu3 with ⟨s2, hs2, hsrc2, hid2⟩
          refine ⟨s2, ?_, hsrc2, hid2⟩
          show alookup u (t.sessions
              ++ [(UUID.minted t.nextMint,
                   freshSession env e (UUID.minted t.nextMint))]) = some s2
          rw [alookup_append, hs2]
      · intro u s2 hmem hice
        have hmem2 : (u, s2) ∈ t.sessions
            ++ [(UUID.minted t.nextMint,
                 freshSession env e (UUID.minted t.nextMint))] := hmem
        rcases List.mem_append.mp hmem2 with hmem3 | hmem3
        · have hold := hb u s2 hmem3 hice
          have hne : s2.icecastID ≠ e.IcecastID := by
            intro he
            rw [he, hm] at hold
            cases hold
          show alookup s2.icecastID
              (aupsert e.IcecastID (UUID.minted t.nextMint) t.icecastSessions) = some u
          rw [alookup_aupsert_ne _ _ hne]
          exact hold
        · rw [List.mem_singleton, Prod.mk.injEq] at hmem3
          show alookup s2.icecastID
              (aupsert e.IcecastID (UUID.minted t.nextMint) t.icecastSessions) = some u
          rw [hmem3.2, (freshSession_fields env e (UUID.minted t.nextMint)).2.1,
             hmem3.1]
          exact alookup_aupsert_self _ _ _
      · intro u hu
        have hu2 : u ∈ keysOf t.sessions ++ [UUID.minted t.nextMint] := by
          have := hu
          rw [show keysOf (t.sessions
                ++ [(UUID.minted t.nextMint,
                     freshSession env e (UUID.minted t.nextMint))])
                = keysOf t.sessions ++ [UUID.minted t.nextMint] from by
              rw [keysOf_append]; rfl] at this
          exact this
        have target : u ∈ keysOf t.folded ++ [UUID.minted t.nextMint]
            → u ∈ keysOf (t.folded ++ [(UUID.minted t.nextMint, e)]) := by
          intro hx
          rw [show keysOf (t.folded ++ [(UUID.minted t.nextMint, e)])
                = keysOf t.folded ++ [UUID.minted t.nextMint] from by
              rw [keysOf_append]; rfl]
          exact hx
        apply target
        rcases List.mem_append.mp hu2 with hu3 | hu3
        · exact List.mem_append.mpr (Or.inl (h5 u hu3))
        · exact List.mem_append.mpr (Or.inr hu3)
      · show t.flushedRows.length + t.errSessions
            + (t.sessions
                ++ [(UUID.minted t.nextMint,
                     freshSession env e (UUID.minted t.nextMint))]).length
            = t.creations + 1
        rw [List.length_append]
        simp only [List.length_singleton]
        omega
    · -- known client id
      unfold handleEvent
      rw [resolveSID_hit hsrc hm]
      apply Inv_applyEvent env e u t hInv
      · intro k hk
        rcases m3 e.IcecastID u (alookup_mem hm) with ⟨k0, hk0, hlt⟩
        rw [hk] at hk0
        cases hk0
        exact hlt
      · intro hnone
        rcases hf e.IcecastID u (alookup_mem hm) with ⟨s2, hs2, _, _⟩
        rw [hnone] at hs2
        cases hs2
  · rcases hp : env.uuidParse e.SID with _ | n
    · unfold handleEvent
      rw [resolveSID_nil hsrc hp]
      apply Inv_applyEvent env e uuidNil t hInv
      · intro k hk
        cases hk
      · intro _
        exact hsrc
    · unfold handleEvent
      rw [resolveSID_parsed hsrc hp]
      apply Inv_applyEvent env e (UUID.parsed n) t hInv
      · intro k hk
        cases hk
      · intro _
        exact hsrc

theorem NoReapInv_applyEvent (env : Env) (e : ChunkEvent) (sid : UUID) (t : SessionTracker)
    (h : NoReapInv t) : NoReapInv (applyEvent env e sid t) := by
  unfold NoReapInv at h ⊢
  obtain ⟨hsub, hcount⟩ := h
  rcases hl : alookup sid t.sessions with _ | s
  · rw [applyEvent_create env e sid t hl]
    constructor
    · intro u hu
      have hu2 : u ∈ keysOf t.folded ++ [sid] := by
        have := hu
        rw [show keysOf (t.folded ++ [(sid, e)]) = keysOf t.folded ++ [sid] from by
            rw [keysOf_append]; rfl] at this
        exact this
      have target : u ∈ keysOf t.sessions ++ [sid]
          → u ∈ keysOf (t.sessions ++ [(sid, freshSession env e sid)]) := by
        intro hx
        rw [show keysOf (t.sessions ++ [(sid, freshSession env e sid)])
              = keysOf t.sessions ++ [sid] from by rw [keysOf_append]; rfl]
        exact hx
      apply target
      rcases List.mem_append.mp hu2 with hu3 | hu3
      · exact List.mem_append.mpr (Or.inl (hsub u hu3))
      · exact List.mem_append.mpr (Or.inr hu3)
    · show t.creations + 1 = (t.sessions ++ [(sid, freshSession env e sid)]).length
      rw [List.length_append]
      simp only [List.length_singleton]
      omega
  · have hsidmem : sid ∈ keysOf t.sessions := mem_keysOf_of_mem (alookup_mem hl)
    rw [applyEvent_update env e sid t hl]
    have hkeys : keysOf (aupsert sid (touchSession e s) t.sessions) = keysOf t.sessions :=
      keysOf_aupsert_mem _ hsidmem
    constructor
    · intro u hu
      have hu2 : u ∈ keysOf t.folded ++ [sid] := by
        have := hu
        rw [show keysOf (t.folded ++ [(sid, e)]) = keysOf t.folded ++ [sid] from by
            rw [keysOf_append]; rfl] at this
        exact this
      show u ∈ keysOf (aupsert sid (touchSession e s) t.sessions)
      rw [hkeys]
      rcases List.mem_append.mp hu2 with hu3 | hu3
      · exact hsub u hu3
      · rw [List.mem_singleton] at hu3
        exact hu3 ▸ hsidmem
    · show t.creations = (aupsert sid (touchSession e s) t.sessions).length
      rw [length_aupsert_mem _ hsidmem]
      exact hcount

theorem NoReapInv_handleEvent (env : Env) (e : ChunkEvent) (t : SessionTracker)
    (h : NoReapInv t) : NoReapInv (handleEvent env e t) := by
  by_cases hsrc : e.Source = EventSourceIceCast
  · rcases hm : alookup e.IcecastID t.icecastSessions with _ | u
    · unfold handleEvent
      rw [resolveSID_miss hsrc hm]
      exact NoReapInv_applyEvent env e _ _ h
    · unfold handleEvent
      rw [resolveSID_hit hsrc hm]
      exact NoReapInv_applyEvent env e _ _ h
  · rcases hp : env.uuidParse e.SID with _ | n
    · unfold handleEvent
      rw [resolveSID_nil hsrc hp]
      exact NoReapInv_applyEvent env e _ _ h
    · unfold handleEvent
      rw [resolveSID_parsed hsrc hp]
      exact NoReapInv_applyEvent env e _ _ h

theorem Inv_reap (now : Int) (ok : Bool) (t : SessionTracker) (hInv : Inv t) :
    Inv (reap now ok t) := by
  have hc := hInv
  unfold Inv MintedOk IceMapOk at hc
  obtain ⟨h1, h2, ⟨m1, m2, m3⟩, ⟨hf, hb⟩, h5, h6⟩ := hc
  have hkept1 : (keysOf (t.sessions.filter (fun p => !(expirePred t now p.2)))).Nodup :=
    (keysOf_filter_sublist _ _).nodup h1
  have hice2 : (keysOf (iceErase (reapBatch now t) t.icecastSessions)).Nodup :=
    nodup_iceErase _ _ h2
  have hm1 : ∀ k, UUID.minted k ∈ keysOf (t.sessions.filter (fun p => !(expirePred t now p.2)))
      → k < t.nextMint := by
    intro k hk
    exact m1 k ((keysOf_filter_sublist _ _).subset hk)
  have hm3 : ∀ c u, (c, u) ∈ iceErase (reapBatch now t) t.icecastSessions
      → ∃ k, u = UUID.minted k ∧ k < t.nextMint := by
    intro c u hcu
    exact m3 c u (mem_iceErase_sub _ _ hcu)
  have hfwd : ∀ c u, (c, u) ∈ iceErase (reapBatch now t) t.icecastSessions →
      ∃ s2, alookup u (t.sessions.filter (fun p => !(expirePred t now p.2))) = some s2
        ∧ s2.Source = EventSourceIceCast ∧ s2.icecastID = c := by
    intro c u hcu
    rcases hf c u (mem_iceErase_sub _ _ hcu) with ⟨s2, hs2, hsrc2, hid2⟩
    have hnotexp : expirePred t now s2 = false := by
      cases hex : expirePred t now s2
      · rfl
      · exfalso
        have hmemexp : (u, s2) ∈ reapBatch now t :=
          List.mem_filter.mpr ⟨alookup_mem hs2, hex⟩
        have hnone : alookup s2.icecastID (iceErase (reapBatch now t) t.icecastSessions)
            = none :=
          alookup_iceErase_of_mem (q := (u, s2)) _ _ h2 hmemexp hsrc2
        rw [hid2] at hnone
        have hsome : c ∈ keysOf (iceErase (reapBatch now t) t.icecastSessions) :=
          mem_keysOf_of_mem hcu
        exact ((alookup_eq_none_iff _ _).mp hnone) hsome
    refine ⟨s2, ?_, hsrc2, hid2⟩
    exact alookup_filter_of_pos h1 hs2 (by rw [hnotexp]; rfl)
  have hbwd : ∀ u s2, (u, s2) ∈ t.sessions.filter (fun p => !(expirePred t now p.2)) →
      s2.Source = EventSourceIceCast →
      alookup s2.icecastID (iceErase (reapBatch now t) t.icecastSessions) = some u := by
    intro u s2 hmem hice
    rcases List.mem_filter.mp hmem with ⟨hmem0, hpred⟩
    have hpf : expirePred t now s2 = false := by
      cases hex : expirePred t now s2
      · rfl
      · rw [hex] at hpred
        cases hpred
    have hold := hb u s2 hmem0 hice
    have hnoterase : ∀ q ∈ reapBatch now t, q.2.Source = EventSourceIceCast
        → q.2.icecastID ≠ s2.icecastID := by
      intro q hq hqice hqe
      rcases List.mem_filter.mp hq with ⟨hq0, hqex⟩
      have hqb := hb q.1 q.2 hq0 hqice
      rw [hqe, hold] at hqb
      have hq1u : q.1 = u := (Option.some.inj hqb).symm
      have hqpair : (u, q.2) ∈ t.sessions := by
        have := hq0
        rw [show q = (q.1, q.2) from rfl, hq1u] at this
        exact this
      have hq2s : q.2 = s2 := key_unique h1 hqpair hmem0
      rw [hq2s, hpf] at hqex
      cases hqex
    rw [alookup_iceErase_of_not_erased _ _ hnoterase]
    exact hold
  have hsub5 : ∀ u, u ∈ keysOf (t.sessions.filter (fun p => !(expirePred t now p.2)))
      → u ∈ keysOf t.folded := by
    intro u hu
    exact h5 u ((keysOf_filter_sublist _ _).subset hu)
  have hlen := length_filter_add_length_filter_not t.sessions (fun p => expirePred t now p.2)
  have hrowlen : (reapRows now t).length = (reapBatch now t).length := by
    unfold reapRows
    rw [List.length_map]
  simp only [reap]
  by_cases hre : (reapRows now t).isEmpty = true
  · rw [if_pos hre]
    have hrnil : reapRows now t = [] := by
      rwa [List.isEmpty_iff] at hre
    have hexplen : (reapBatch now t).length = 0 := by
      rw [← hrowlen, hrnil]
      rfl
    unfold Inv MintedOk IceMapOk
    refine ⟨hkept1, hice2, ⟨hm1, m2, hm3⟩, ⟨hfwd, hbwd⟩, hsub5, ?_⟩
    show t.flushedRows.length + t.errSessions
        + (t.sessions.filter (fun p => !(expirePred t now p.2))).length = t.creations
    have hb0 : (reapBatch now t).length
        = (t.sessions.filter (fun p => expirePred t now p.2)).length := rfl
    omega
  · rw [if_neg hre]
    by_cases hok : ok = true
    · rw [if_pos hok]
      unfold Inv MintedOk IceMapOk
      refine ⟨hkept1, hice2, ⟨hm1, m2, hm3⟩, ⟨hfwd, hbwd⟩, hsub5, ?_⟩
      show (t.flushedRows ++ reapRows now t).length + t.errSessions
          + (t.sessions.filter (fun p => !(expirePred t now p.2))).length = t.creations
      rw [List.length_append]
      have hb0 : (reapBatch now t).length
          = (t.sessions.filter (fun p => expirePred t now p.2)).length := rfl
      omega
    · rw [if_neg hok]
      unfold Inv MintedOk IceMapOk
      refine ⟨hkept1, hice2, ⟨hm1, m2, hm3⟩, ⟨hfwd, hbwd⟩, hsub5, ?_⟩
      show t.flushedRows.length + (t.errSessions + (reapRows now t).length)
          + (t.sessions.filter (fun p => !(expirePred t now p.2))).length = t.creations
      have hb0 : (reapBatch now t).length
          = (t.sessions.filter (fun p => expirePred t now p.2)).length := rfl
      omega

theorem Inv_init (cap : Nat) (tmo itmo : Int) : Inv (initTracker cap tmo itmo) := by
  unfold Inv MintedOk IceMapOk initTracker keysOf
  refine ⟨List.nodup_nil, List.nodup_nil, ⟨?_, ?_, ?_⟩, ⟨?_, ?_⟩, ?_, rfl⟩
  · intro k hk
    simp at hk
  · intro k hk
    simp at hk
  · intro c u hcu
    simp at hcu
  · intro c u hcu
    simp at hcu
  · intro u s hmem _
    simp at hmem
  · intro u hu
    simp at hu

theorem NoReapInv_init (cap : Nat) (tmo itmo : Int) : NoReapInv (initTracker cap tmo itmo) := by
  unfold NoReapInv initTracker keysOf
  refine ⟨?_, rfl⟩
  intro u hu
  simp at hu

theorem Inv_stepAct (env : Env) (t : SessionTracker) (a : Act) (h : Inv t) :
    Inv (stepAct env t a) := by
  cases a with
  | submit e =>
      show Inv (match SessionTracker.Send t e with | some r => r.2 | none => t)
      unfold SessionTracker.Send
      by_cases hcl : t.closed = true
      · rw [if_pos hcl]
        exact h
      · rw [if_neg hcl]
        by_cases hq : t.queue.length < t.cap
        · rw [if_pos hq]
          exact h
        · rw [if_neg hq]
          exact h
  | deq =>
      show Inv (match t.queue with
        | [] => t
        | e :: rest => handleEvent env e { t with queue := rest })
      cases hq : t.queue with
      | nil => exact h
      | cons e rest => exact Inv_handleEvent env e _ h
  | reapTick now ok => exact Inv_reap now ok t h

theorem Inv_runActs (env : Env) (acts : List Act) (t : SessionTracker) (h : Inv t) :
    Inv (runActs env t acts) := by
  induction acts generalizing t with
  | nil => exact h
  | cons a rest ih => exact ih _ (Inv_stepAct env t a h)

theorem NoReapInv_stepAct (env : Env) (t : SessionTracker) (a : Act)
    (hnr : a.isReap = false) (h : NoReapInv t) : NoReapInv (stepAct env t a) := by
  cases a with
  | submit e =>
      show NoReapInv (match SessionTracker.Send t e with | some r => r.2 | none => t)
      unfold SessionTracker.Send
      by_cases hcl : t.closed = true
      · rw [if_pos hcl]
        exact h
      · rw [if_neg hcl]
        by_cases hq : t.queue.length < t.cap
        · rw [if_pos hq]
          exact h
        · rw [if_neg hq]
          exact h
  | deq =>
      show NoReapInv (match t.queue with
        | [] => t
        | e :: rest => handleEvent env e { t with queue := rest })
      cases hq : t.queue with
      | nil => exact h
      | cons e rest => exact NoReapInv_handleEvent env e _ h
  | reapTick now ok => cases hnr

theorem NoReapInv_runActs (env : Env) (acts : List Act) (t : SessionTracker)
    (hnr : acts.all (fun a => !(a.isReap)) = true) (h : NoReapInv t) :
    NoReapInv (runActs env t acts) := by
  induction acts generalizing t with
  | nil => exact h
  | cons a rest ih =>
      rw [List.all_cons, Bool.and_eq_true] at hnr
      have ha : a.isReap = false := by
        cases hia : a.isReap
        · rfl
        · rw [hia] at hnr
          cases hnr.1
      exact ih _ hnr.2 (NoReapInv_stepAct env t a ha h)

theorem Inv_foldl_handleEvent (env : Env) (evs : List ChunkEvent) (t : SessionTracker)
    (h : Inv t) : Inv (evs.foldl (fun acc e => handleEvent env e acc) t) := by
  induction evs generalizing t with
  | nil => exact h
  | cons e rest ih => exact ih _ (Inv_handleEvent env e t h)

theorem NoReapInv_foldl_handleEvent (env : Env) (evs : List ChunkEvent) (t : SessionTracker)
    (h : NoReapInv t) : NoReapInv (evs.foldl (fun acc e => handleEvent env e acc) t) := by
  induction evs generalizing t with
  | nil => exact h
  | cons e rest ih => exact ih _ (NoReapInv_handleEvent env e t h)

theorem Inv_drain (env : Env) (t : SessionTracker) (h : Inv t) : Inv (drain env t) := by
  unfold drain
  exact Inv_foldl_handleEvent env t.queue _ h

theorem NoReapInv_drain (env : Env) (t : SessionTracker) (h : NoReapInv t) :
    NoReapInv (drain env t) := by
  unfold drain
  exact NoReapInv_foldl_handleEvent env t.queue _ h

theorem flushAll_counts (ok : Bool) (t : SessionTracker) :
    (flushAll ok t).flushedRows.length + (flushAll ok t).errSessions
        = t.flushedRows.length + t.errSessions + t.sessions.length
    ∧ (flushAll ok t).creations = t.creations
    ∧ (flushAll ok t).folded = t.folded := by
  unfold flushAll
  by_cases he : t.sessions.isEmpty = true
  · rw [if_pos he]
    have hnil : t.sessions = [] := by rwa [List.isEmpty_iff] at he
    rw [hnil]
    exact ⟨rfl, rfl, rfl⟩
  · rw [if_neg he]
    by_cases hok : ok = true
    · rw [if_pos hok]
      refine ⟨?_, rfl, rfl⟩
      show (t.flushedRows ++ t.sessions.map _).length + t.errSessions
          = t.flushedRows.length + t.errSessions + t.sessions.length
      rw [List.length_append, List.length_map]
      omega
    · rw [if_neg hok]
      refine ⟨?_, rfl, rfl⟩
      show t.flushedRows.length + (t.errSessions + (t.sessions.map _).length)
          = t.flushedRows.length + t.errSessions + t.sessions.length
      rw [List.length_map]
      omega

/-! ## Claim C4 -/

/-- Claim C4: after any sequence of tracker inputs, the icecast client-id
map has an entry for a client id iff a live Icecast session carrying that
client id (the back-pointer stored at creation) is in the store; reap
removes the two in lock-step, so the equivalence holds between inputs. -/
theorem icecast_mapping_iff (env : Env) (cap : Nat) (tmo itmo : Int)
    (acts : List Act) (c : Int) :
    (alookup c (runActs env (initTracker cap tmo itmo) acts).icecastSessions).isSome = true
      ↔ ∃ u s, alookup u (runActs env (initTracker cap tmo itmo) acts).sessions = some s
          ∧ s.Source = EventSourceIceCast ∧ s.icecastID = c := by
  have hInv := Inv_runActs env acts _ (Inv_init cap tmo itmo)
  unfold Inv MintedOk IceMapOk at hInv
  obtain ⟨h1, _, _, ⟨hf, hb⟩, _, _⟩ := hInv
  constructor
  · intro hs
    rcases Option.isSome_iff_exists.mp hs with ⟨u, hu⟩
    rcases hf c u (alookup_mem hu) with ⟨s2, hs2, ha2, hb2⟩
    exact ⟨u, s2, hs2, ha2, hb2⟩
  · rintro ⟨u, s2, hs2, hice, hid⟩
    have hlu := hb u s2 (alookup_mem hs2) hice
    rw [hid] at hlu
    rw [hlu]
    rfl

/-- Witness for `icecast_mapping_iff`: after one Icecast callback for
client 7, the mapping entry and the live session certify both directions
of the equivalence at a concrete state. -/
theorem icecast_mapping_iff_witness :
    (alookup 7 (runActs envC (initTracker 10 60 86400)
        [Act.submit ei1C, Act.deq]).icecastSessions).isSome = true ∧
    (alookup 9 (runActs envC (initTracker 10 60 86400)
        [Act.submit ei1C, Act.deq]).icecastSessions).isSome = false := by
  constructor
  · exact (icecast_mapping_iff envC 10 60 86400 [Act.submit ei1C, Act.deq] 7).mpr
      ⟨UUID.minted 0, freshSession envC ei1C (UUID.minted 0), by decide, by decide, by decide⟩
  · have hiff := icecast_mapping_iff envC 10 60 86400 [Act.submit ei1C, Act.deq] 9
    cases hsome : (alookup 9 (runActs envC (initTracker 10 60 86400)
        [Act.submit ei1C, Act.deq]).icecastSessions).isSome
    · rfl
    · exfalso
      rcases hiff.mp hsome with ⟨u, s, hs, _, hid⟩
      have : (u, s) ∈ (runActs envC (initTracker 10 60 86400)
          [Act.submit ei1C, Act.deq]).sessions := alookup_mem hs
      have hl : (runActs envC (initTracker 10 60 86400)
          [Act.submit ei1C, Act.deq]).sessions
          = [(UUID.minted 0, freshSession envC ei1C (UUID.minted 0))] := by decide
      rw [hl] at this
      rw [List.mem_singleton, Prod.mk.injEq] at this
      rw [this.2] at hid
      revert hid
      decide

/-! ## Claim C6 -/

/-- Claim C6 counterexample: an HLS session expires on a reaper tick and
the same textual SID then creates a second session; two rows reach the
sink (no flush errors) while identity resolution produced a single
distinct session UUID, so rows + error-accounted sessions is not the
number of distinct resolved UUIDs. -/
theorem flush_conservation_counterexample :
    fin6.flushedRows.length = 2 ∧ fin6.errSessions = 0 ∧
    (keysOf fin6.folded).dedup.length = 1 ∧
    fin6.flushedRows.length + fin6.errSessions ≠ (keysOf fin6.folded).dedup.length := by
  decide

/-- Claim C6 (amended): after any finite sequence of tracker inputs
followed by Shutdown, rows written to the sessions sink plus sessions
accounted for in flush errors equal the number of Session creations; when
no reaper tick intervened, that number is exactly the number of distinct
session UUIDs produced by identity resolution over the queued events. -/
theorem flush_conservation_amended (env : Env) (cap : Nat) (tmo itmo : Int)
    (acts : List Act) (ok : Bool) :
    ((shutdownRun env ok (runActs env (initTracker cap tmo itmo) acts)).flushedRows.length
        + (shutdownRun env ok (runActs env (initTracker cap tmo itmo) acts)).errSessions
      = (shutdownRun env ok (runActs env (initTracker cap tmo itmo) acts)).creations)
    ∧ (acts.all (fun a => !(a.isReap)) = true →
        (shutdownRun env ok (runActs env (initTracker cap tmo itmo) acts)).creations
          = (keysOf (shutdownRun env ok
              (runActs env (initTracker cap tmo itmo) acts)).folded).dedup.length) := by
  have hInv2 : Inv (drain env (runActs env (initTracker cap tmo itmo) acts)) :=
    Inv_drain env _ (Inv_runActs env acts _ (Inv_init cap tmo itmo))
  have hcounts := flushAll_counts ok (drain env (runActs env (initTracker cap tmo itmo) acts))
  constructor
  · have h6 := hInv2
    unfold Inv at h6
    obtain ⟨_, _, _, _, _, h6⟩ := h6
    show (flushAll ok (drain env (runActs env (initTracker cap tmo itmo) acts))).flushedRows.length
        + (flushAll ok (drain env (runActs env (initTracker cap tmo itmo) acts))).errSessions
      = (flushAll ok (drain env (runActs env (initTracker cap tmo itmo) acts))).creations
    rw [hcounts.1, hcounts.2.1]
    omega
  · intro hnr
    have hnr2 : NoReapInv (drain env (runActs env (initTracker cap tmo itmo) acts)) :=
      NoReapInv_drain env _
        (NoReapInv_runActs env acts _ hnr (NoReapInv_init cap tmo itmo))
    have hc := hInv2
    unfold Inv at hc
    obtain ⟨h1, _, _, _, h5, _⟩ := hc
    unfold NoReapInv at hnr2
    obtain ⟨hsub, hcount⟩ := hnr2
    show (flushAll ok (drain env (runActs env (initTracker cap tmo itmo) acts))).creations
      = (keysOf (flushAll ok
          (drain env (runActs env (initTracker cap tmo itmo) acts))).folded).dedup.length
    rw [hcounts.2.1, hcounts.2.2]
    set t2 := drain env (runActs env (initTracker cap tmo itmo) acts) with ht2
    have hiff : ∀ u, u ∈ keysOf t2.sessions ↔ u ∈ keysOf t2.folded :=
      fun u => ⟨fun hu => h5 u hu, fun hu => hsub u hu⟩
    have hlen : (keysOf t2.sessions).length = t2.sessions.length := by
      unfold keysOf
      rw [List.length_map]
    have hfin : (keysOf t2.sessions).toFinset = (keysOf t2.folded).dedup.toFinset := by
      ext u
      rw [List.mem_toFinset, List.mem_toFinset, List.mem_dedup]
      exact hiff u
    have hcard1 : (keysOf t2.sessions).toFinset.card = (keysOf t2.sessions).length :=
      List.toFinset_card_of_nodup h1
    have hcard2 : (keysOf t2.folded).dedup.toFinset.card = (keysOf t2.folded).dedup.length :=
      List.toFinset_card_of_nodup (List.nodup_dedup _)
    rw [hcount, ← hlen, ← hcard1, hfin, hcard2]

/-- Witness for `flush_conservation_amended` on a reap-free trace: two
events with the same SID and one with another SID yield two creations and
two distinct resolved UUIDs. -/
theorem flush_conservation_amended_witness :
    (shutdownRun envC true (runActs envC (initTracker 10 60 86400)
        [Act.submit e1C, Act.deq, Act.submit e2C, Act.deq,
         Act.submit ei1C, Act.deq])).creations
      = (keysOf (shutdownRun envC true (runActs envC (initTracker 10 60 86400)
          [Act.submit e1C, Act.deq, Act.submit e2C, Act.deq,
           Act.submit ei1C, Act.deq])).folded).dedup.length :=
  (flush_conservation_amended envC 10 60 86400
    [Act.submit e1C, Act.deq, Act.submit e2C, Act.deq, Act.submit ei1C, Act.deq] true).2
    (by decide)

/-! ## Claim C5 -/

theorem reap_sessions_eq (now : Int) (ok : Bool) (t : SessionTracker) :
    (reap now ok t).sessions = t.sessions.filter (fun p => !(expirePred t now p.2)) := by
  simp only [reap]
  by_cases hre : (reapRows now t).isEmpty = true
  · rw [if_pos hre]
  · rw [if_neg hre]
    by_cases hok : ok = true
    · rw [if_pos hok]
    · rw [if_neg hok]

/-- Claim C5: on a reaper tick an HLS session is expired iff
now − last_active > session_timeout; every expired session is collected
into the tick's batch with duration = last_active − start and removed
from the store, and non-expired sessions stay. -/
theorem reap_hls_expiry (t : SessionTracker) (now : Int) (ok : Bool) (u : UUID) (s : Session)
    (hn : (keysOf t.sessions).Nodup)
    (hl : alookup u t.sessions = some s)
    (hsrc : s.Source = EventSourceHLS) :
    (now - s.LastActive > t.timeout →
        (u, s) ∈ reapBatch now t
        ∧ { s with Duration := s.LastActive - s.StartTime } ∈ reapRows now t
        ∧ alookup u (reap now ok t).sessions = none) ∧
    (¬ now - s.LastActive > t.timeout →
        (u, s) ∉ reapBatch now t ∧ alookup u (reap now ok t).sessions = some s) ∧
    (∀ r ∈ reapRows now t, r.Duration = r.LastActive - r.StartTime) ∧
    (∀ u2 s2, alookup u2 t.sessions = some s2 → expirePred t now s2 = true →
        (u2, s2) ∈ reapBatch now t ∧ alookup u2 (reap now ok t).sessions = none) := by
  have hep : expirePred t now s = decide (now - s.LastActive > t.timeout) := by
    unfold expirePred
    rw [hsrc, if_neg (by decide : ¬ EventSourceHLS = EventSourceIceCast)]
  refine ⟨?_, ?_, ?_, ?_⟩
  · intro hexp
    have hpt : expirePred t now s = true := by
      rw [hep]
      exact decide_eq_true hexp
    have hmem : (u, s) ∈ reapBatch now t := List.mem_filter.mpr ⟨alookup_mem hl, hpt⟩
    refine ⟨hmem, ?_, ?_⟩
    · exact List.mem_map_of_mem _ hmem
    · rw [reap_sessions_eq]
      refine alookup_filter_of_neg hn hl ?_
      show (!(expirePred t now (u, s).2)) = false
      rw [show expirePred t now (u, s).2 = true from hpt]
      rfl
  · intro hnexp
    have hpf : expirePred t now s = false := by
      rw [hep]
      exact decide_eq_false hnexp
    constructor
    · intro hmem
      rcases List.mem_filter.mp hmem with ⟨_, hx⟩
      rw [show expirePred t now (u, s).2 = false from hpf] at hx
      cases hx
    · rw [reap_sessions_eq]
      refine alookup_filter_of_pos hn hl ?_
      show (!(expirePred t now (u, s).2)) = true
      rw [show expirePred t now (u, s).2 = false from hpf]
      rfl
  · intro r hr
    rcases List.mem_map.mp hr with ⟨p, _, hpr⟩
    rw [← hpr]
  · intro u2 s2 hl2 hex2
    have hmem2 : (u2, s2) ∈ reapBatch now t := List.mem_filter.mpr ⟨alookup_mem hl2, hex2⟩
    refine ⟨hmem2, ?_⟩
    rw [reap_sessions_eq]
    refine alookup_filter_of_neg hn hl2 ?_
    show (!(expirePred t now (u2, s2).2)) = false
    rw [show expirePred t now (u2, s2).2 = true from hex2]
    rfl

/-- Witness for `reap_hls_expiry` on the concrete store `st5` at tick
time 100 with a 60 second timeout: the idle session is batched with
duration 20 and removed, the fresh one survives. -/
theorem reap_hls_expiry_witness :
    (UUID.parsed 1, s5a) ∈ reapBatch 100 st5 ∧
    ({ s5a with Duration := 20 } : Session) ∈ reapRows 100 st5 ∧
    alookup (UUID.parsed 1) (reap 100 true st5).sessions = none ∧
    ((UUID.parsed 2, s5b) ∉ reapBatch 100 st5 ∧
      alookup (UUID.parsed 2) (reap 100 true st5).sessions = some s5b) := by
  have h1 := reap_hls_expiry st5 100 true (UUID.parsed 1) s5a
    (by decide) (by decide) (by decide)
  have h2 := reap_hls_expiry st5 100 true (UUID.parsed 2) s5b
    (by decide) (by decide) (by decide)
  have ha := h1.1 (by decide)
  refine ⟨ha.1, ?_, ha.2.2, h2.2.1 (by decide)⟩
  have hd : ({ s5a with Duration := 20 } : Session)
      = { s5a with Duration := s5a.LastActive - s5a.StartTime } := by decide
  rw [hd]
  exact ha.2.1

/-! ## Claim C7 -/

theorem mem_hlsMounts_iff (now timeout : Int) (sessions : List (UUID × Session)) (m : String) :
    m ∈ hlsMounts now timeout sessions ↔ 0 < hlsCount now timeout sessions m := by
  unfold hlsMounts hlsCount
  rw [List.mem_dedup, filter_length_pos_iff]
  constructor
  · intro hm
    rcases List.mem_map.mp hm with ⟨p, hp, hpm⟩
    rcases List.mem_filter.mp hp with ⟨hp0, hpq⟩
    refine ⟨p, hp0, ?_⟩
    rw [Bool.and_eq_true]
    exact ⟨hpq, decide_eq_true hpm⟩
  · rintro ⟨p, hp, hq⟩
    rw [Bool.and_eq_true] at hq
    exact List.mem_map.mpr ⟨p, List.mem_filter.mpr ⟨hp, hq.1⟩, of_decide_eq_true hq.2⟩

theorem mem_iceMounts_iff (sessions : List (UUID × Session)) (m : String) :
    m ∈ iceMounts sessions ↔ 0 < iceCount sessions m := by
  unfold iceMounts iceCount
  rw [List.mem_dedup, filter_length_pos_iff]
  constructor
  · intro hm
    rcases List.mem_map.mp hm with ⟨p, hp, hpm⟩
    rcases List.mem_filter.mp hp with ⟨hp0, hpq⟩
    refine ⟨p, hp0, ?_⟩
    rw [Bool.and_eq_true]
    exact ⟨hpq, decide_eq_true hpm⟩
  · rintro ⟨p, hp, hq⟩
    rw [Bool.and_eq_true] at hq
    exact List.mem_map.mpr ⟨p, List.mem_filter.mpr ⟨hp, hq.1⟩, of_decide_eq_true hq.2⟩

theorem length_filter_map_le_one {α β : Type} (ms : List α) (hnd : ms.Nodup)
    (f : α → β) (pred : β → Bool) (m : α)
    (hp : ∀ a, pred (f a) = true → a = m) :
    ((ms.map f).filter pred).length ≤ 1 := by
  induction ms with
  | nil => simp
  | cons a t ih =>
      rw [List.map_cons, List.filter_cons]
      rcases List.nodup_cons.mp hnd with ⟨hna, hnt⟩
      by_cases hfa : pred (f a) = true
      · rw [if_pos hfa]
        have ham : a = m := hp a hfa
        have hnil : (t.map f).filter pred = [] := by
          rw [List.filter_eq_nil_iff]
          intro b hb
          rcases List.mem_map.mp hb with ⟨a2, ha2, hab⟩
          intro hpb
          have ha2m : a2 = m := hp a2 (by rw [hab]; exact hpb)
          rw [ha2m, ← ham] at ha2
          exact hna ha2
        rw [hnil]
        simp
      · rw [if_neg hfa]
        exact ih hnt

/-- Claim C7: on a sampling tick an HLS session is counted iff
now − last_active ≤ session_timeout, an Icecast session iff
start = last_active; one (timestamp, source, mount, count) row appears
per non-empty (source, mount) bucket, at most one row per bucket, and
nothing is written when every bucket is empty. -/
theorem listeners_total_rows (now timeout : Int) (sessions : List (UUID × Session)) :
    (∀ p, p ∈ sessions → (hlsQual now timeout p = true
        ↔ (p.2.Source = EventSourceHLS ∧ now - p.2.LastActive ≤ timeout))) ∧
    (∀ p, p ∈ sessions → (iceQual p = true
        ↔ (¬ p.2.Source = EventSourceHLS ∧ p.2.StartTime = p.2.LastActive))) ∧
    (∀ m c, (({ timestamp := now, source := EventSourceHLS, mount := m, count := c } : LRow)
        ∈ listenersRows now timeout sessions)
      ↔ (c = hlsCount now timeout sessions m ∧ 0 < c)) ∧
    (∀ m c, (({ timestamp := now, source := EventSourceIceCast, mount := m, count := c } : LRow)
        ∈ listenersRows now timeout sessions)
      ↔ (c = iceCount sessions m ∧ 0 < c)) ∧
    (∀ m, ((listenersRows now timeout sessions).filter
        (fun r => decide (r.source = EventSourceHLS) && decide (r.mount = m))).length ≤ 1) ∧
    (∀ m, ((listenersRows now timeout sessions).filter
        (fun r => decide (r.source = EventSourceIceCast) && decide (r.mount = m))).length ≤ 1) ∧
    (addListenersTotal now timeout sessions = none
      ↔ ∀ m, hlsCount now timeout sessions m = 0 ∧ iceCount sessions m = 0) := by
  refine ⟨?_, ?_, ?_, ?_, ?_, ?_, ?_⟩
  · intro p _
    unfold hlsQual
    rw [Bool.and_eq_true]
    rw [decide_eq_true_iff, decide_eq_true_iff]
  · intro p _
    unfold iceQual
    rw [Bool.and_eq_true]
    rw [Bool.not_eq_true', decide_eq_false_iff_not, decide_eq_true_iff]
  · intro m c
    unfold listenersRows
    rw [List.mem_append]
    constructor
    · intro h
      rcases h with h | h
      · rcases List.mem_map.mp h with ⟨m2, hm2, he⟩
        have hm : m2 = m := congrArg LRow.mount he
        have hcc : hlsCount now timeout sessions m2 = c := congrArg LRow.count he
        rw [hm] at hcc
        have hpos : 0 < hlsCount now timeout sessions m :=
          (mem_hlsMounts_iff now timeout sessions m).mp (hm ▸ hm2)
        exact ⟨hcc.symm, hcc ▸ hpos⟩
      · rcases List.mem_map.mp h with ⟨m2, _, he⟩
        have hsrc : EventSourceIceCast = EventSourceHLS := congrArg LRow.source he
        exact absurd hsrc (by decide)
    · rintro ⟨hc, hpos⟩
      left
      refine List.mem_map.mpr
        ⟨m, (mem_hlsMounts_iff now timeout sessions m).mpr (hc ▸ hpos), ?_⟩
      rw [hc]
  · intro m c
    unfold listenersRows
    rw [List.mem_append]
    constructor
    · intro h
      rcases h with h | h
      · rcases List.mem_map.mp h with ⟨m2, _, he⟩
        have hsrc : EventSourceHLS = EventSourceIceCast := congrArg LRow.source he
        exact absurd hsrc (by decide)
      · rcases List.mem_map.mp h with ⟨m2, hm2, he⟩
        have hm : m2 = m := congrArg LRow.mount he
        have hcc : iceCount sessions m2 = c := congrArg LRow.count he
        rw [hm] at hcc
        have hpos : 0 < iceCount sessions m :=
          (mem_iceMounts_iff sessions m).mp (hm ▸ hm2)
        exact ⟨hcc.symm, hcc ▸ hpos⟩
    · rintro ⟨hc, hpos⟩
      right
      refine List.mem_map.mpr ⟨m, (mem_iceMounts_iff sessions m).mpr (hc ▸ hpos), ?_⟩
      rw [hc]
  · intro m
    unfold listenersRows
    rw [List.filter_append, List.length_append]
    have hnil : ((iceMounts sessions).map
        (fun m2 => ({ timestamp := now, source := EventSourceIceCast, mount := m2,
                      count := iceCount sessions m2 } : LRow))).filter
        (fun r => decide (r.source = EventSourceHLS) && decide (r.mount = m)) = [] := by
      rw [List.filter_eq_nil_iff]
      intro r hr
      rcases List.mem_map.mp hr with ⟨m2, _, he⟩
      rw [← he]
      intro hx
      rw [Bool.and_eq_true] at hx
      have hbad : EventSourceIceCast = EventSourceHLS := of_decide_eq_true hx.1
      exact absurd hbad (by decide)
    rw [hnil]
    have hle := length_filter_map_le_one (hlsMounts now timeout sessions)
      (List.nodup_dedup _)
      (fun m2 => ({ timestamp := now, source := EventSourceHLS, mount := m2,
                    count := hlsCount now timeout sessions m2 } : LRow))
      (fun r => decide (r.source = EventSourceHLS) && decide (r.mount = m)) m
      (by
        intro a ha
        rw [Bool.and_eq_true] at ha
        exact of_decide_eq_true ha.2)
    simpa using hle
  · intro m
    unfold listenersRows
    rw [List.filter_append, List.length_append]
    have hnil : ((hlsMounts now timeout sessions).map
        (fun m2 => ({ timestamp := now, source := EventSourceHLS, mount := m2,
                      count := hlsCount now timeout sessions m2 } : LRow))).filter
        (fun r => decide (r.source = EventSourceIceCast) && decide (r.mount = m)) = [] := by
      rw [List.filter_eq_nil_iff]
      intro r hr
      rcases List.mem_map.mp hr with ⟨m2, _, he⟩
      rw [← he]
      intro hx
      rw [Bool.and_eq_true] at hx
      have hbad : EventSourceHLS = EventSourceIceCast := of_decide_eq_true hx.1
      exact absurd hbad (by decide)
    rw [hnil]
    have hle := length_filter_map_le_one (iceMounts sessions)
      (List.nodup_dedup _)
      (fun m2 => ({ timestamp := now, source := EventSourceIceCast, mount := m2,
                    count := iceCount sessions m2 } : LRow))
      (fun r => decide (r.source = EventSourceIceCast) && decide (r.mount = m)) m
      (by
        intro a ha
        rw [Bool.and_eq_true] at ha
        exact of_decide_eq_true ha.2)
    simpa using hle
  · unfold addListenersTotal
    by_cases hc : ((hlsMounts now timeout sessions).isEmpty
        && (iceMounts sessions).isEmpty) = true
    · rw [if_pos hc]
      rw [Bool.and_eq_true] at hc
      have h1 : hlsMounts now timeout sessions = [] := by
        have := hc.1
        rwa [List.isEmpty_iff] at this
      have h2 : iceMounts sessions = [] := by
        have := hc.2
        rwa [List.isEmpty_iff] at this
      constructor
      · intro _ m
        constructor
        · by_cases h0 : hlsCount now timeout sessions m = 0
          · exact h0
          · exfalso
            have hmem := (mem_hlsMounts_iff now timeout sessions m).mpr
              (Nat.pos_of_ne_zero h0)
            rw [h1] at hmem
            exact List.not_mem_nil m hmem
        · by_cases h0 : iceCount sessions m = 0
          · exact h0
          · exfalso
            have hmem := (mem_iceMounts_iff sessions m).mpr (Nat.pos_of_ne_zero h0)
            rw [h2] at hmem
            exact List.not_mem_nil m hmem
      · intro _
        rfl
    · rw [if_neg hc]
      constructor
      · intro h
        cases h
      · intro hall
        exfalso
        apply hc
        rw [Bool.and_eq_true]
        constructor
        · rw [List.isEmpty_iff, List.eq_nil_iff_forall_not_mem]
          intro m hm
          have hpos := (mem_hlsMounts_iff now timeout sessions m).mp hm
          rw [(hall m).1] at hpos
          exact absurd hpos (lt_irrefl 0)
        · rw [List.isEmpty_iff, List.eq_nil_iff_forall_not_mem]
          intro m hm
          have hpos := (mem_iceMounts_iff sessions m).mp hm
          rw [(hall m).2] at hpos
          exact absurd hpos (lt_irrefl 0)

/-- Witness for `listeners_total_rows` on the concrete store `st5`:
the (HLS, "a") bucket produces the row with count 1, and the fresh HLS
session qualifies. -/
theorem listeners_total_rows_witness :
    (({ timestamp := 100, source := EventSourceHLS, mount := "a", count := 1 } : LRow)
        ∈ listenersRows 100 60 st5.sessions) ∧
    hlsQual 100 60 (UUID.parsed 2, s5b) = true :=
  ⟨((listeners_total_rows 100 60 st5.sessions).2.2.1 "a" 1).mpr ⟨by decide, by decide⟩,
   ((listeners_total_rows 100 60 st5.sessions).1 (UUID.parsed 2, s5b) (by decide)).mpr
     (by decide)⟩

/-! ## Claim C3 machinery -/

theorem mem_aupsert_elim_nodup {α β : Type} [DecidableEq α] {k : α} {v : β} {p : α × β}
    {l : List (α × β)} (hn : (keysOf l).Nodup) (h : p ∈ aupsert k v l) :
    p = (k, v) ∨ (p ∈ l ∧ p.1 ≠ k) := by
  induction l with
  | nil =>
      simp only [aupsert] at h
      rw [List.mem_singleton] at h
      exact Or.inl h
  | cons q t ih =>
      have hq1 : q.1 ∉ keysOf t := by
        have := hn
        simp only [keysOf, List.map_cons, List.nodup_cons] at this
        exact this.1
      have hnt : (keysOf t).Nodup := by
        have := hn
        simp only [keysOf, List.map_cons, List.nodup_cons] at this
        exact this.2
      by_cases hqk : q.1 = k
      · simp only [aupsert, if_pos hqk] at h
        rcases List.mem_cons.mp h with h | h
        · exact Or.inl h
        · refine Or.inr ⟨List.mem_cons_of_mem _ h, ?_⟩
          intro hpk
          rw [← hqk] at hpk
          exact hq1 (hpk ▸ mem_keysOf_of_mem h)
      · simp only [aupsert, if_neg hqk] at h
        rcases List.mem_cons.mp h with h | h
        · refine Or.inr ⟨h ▸ List.mem_cons_self _ _, ?_⟩
          rw [h]
          exact hqk
        · rcases ih hnt h with h2 | h2
          · exact Or.inl h2
          · exact Or.inr ⟨List.mem_cons_of_mem _ h2.1, h2.2⟩

theorem handleEvent_exists_applyEvent (env : Env) (e : ChunkEvent) (t : SessionTracker) :
    ∃ sid t2, handleEvent env e t = applyEvent env e sid t2
      ∧ t2.sessions = t.sessions ∧ t2.folded = t.folded := by
  by_cases hsrc : e.Source = EventSourceIceCast
  · rcases hm : alookup e.IcecastID t.icecastSessions with _ | u
    · refine ⟨UUID.minted t.nextMint,
        { t with icecastSessions := aupsert e.IcecastID (UUID.minted t.nextMint)
                    t.icecastSessions,
                 nextMint := t.nextMint + 1 }, ?_, rfl, rfl⟩
      unfold handleEvent
      rw [resolveSID_miss hsrc hm]
    · refine ⟨u, t, ?_, rfl, rfl⟩
      unfold handleEvent
      rw [resolveSID_hit hsrc hm]
  · rcases hp : env.uuidParse e.SID with _ | n
    · refine ⟨uuidNil, t, ?_, rfl, rfl⟩
      unfold handleEvent
      rw [resolveSID_nil hsrc hp]
    · refine ⟨UUID.parsed n, t, ?_, rfl, rfl⟩
      unfold handleEvent
      rw [resolveSID_parsed hsrc hp]

theorem applyEvent_time_step (env : Env) (e : ChunkEvent) (sid : UUID) (t : SessionTracker)
    (rest : List ChunkEvent)
    (hT : TimeOk t (e :: rest)) (hch : chron (e :: rest)) :
    TimeOk (applyEvent env e sid t) rest ∧
    (∀ u s, alookup u t.sessions = some s →
       ∃ s2, alookup u (applyEvent env e sid t).sessions = some s2
         ∧ s.LastActive ≤ s2.LastActive) := by
  unfold TimeOk at hT
  have hrest : ∀ e2 ∈ rest, e.Time ≤ e2.Time := by
    unfold chron at hch
    exact (List.pairwise_cons.mp hch).1
  rcases hl : alookup sid t.sessions with _ | s
  · -- creation
    rw [applyEvent_create env e sid t hl]
    constructor
    · intro p hp
      have hp2 : p ∈ t.sessions ++ [(sid, freshSession env e sid)] := hp
      rcases List.mem_append.mp hp2 with hp3 | hp3
      · rcases hT p hp3 with ⟨hsl, hle⟩
        exact ⟨hsl, fun e2 he2 => hle e2 (List.mem_cons_of_mem _ he2)⟩
      · rw [List.mem_singleton] at hp3
        rw [hp3]
        constructor
        · rw [(freshSession_fields env e sid).2.2.2.1,
             (freshSession_fields env e sid).2.2.2.2.1]
        · intro e2 he2
          rw [(freshSession_fields env e sid).2.2.2.2.1]
          exact hrest e2 he2
    · intro u s0 hu
      refine ⟨s0, ?_, le_refl _⟩
      show alookup u (t.sessions ++ [(sid, freshSession env e sid)]) = some s0
      rw [alookup_append, hu]
  · -- update
    rw [applyEvent_update env e sid t hl]
    constructor
    · intro p hp
      have hp2 : p ∈ aupsert sid (touchSession e s) t.sessions := hp
      rcases mem_aupsert_elim hp2 with hp3 | hp3
      · rw [hp3]
        rcases hT (sid, s) (alookup_mem hl) with ⟨hsl, hle⟩
        constructor
        · rw [(touchSession_fields e s).2.2.2.1, (touchSession_fields e s).2.2.2.2.1]
          exact le_trans hsl (hle e (List.mem_cons_self _ _))
        · intro e2 he2
          rw [(touchSession_fields e s).2.2.2.2.1]
          exact hrest e2 he2
      · rcases hT p hp3 with ⟨hsl, hle⟩
        exact ⟨hsl, fun e2 he2 => hle e2 (List.mem_cons_of_mem _ he2)⟩
    · intro u s0 hu
      by_cases husid : u = sid
      · subst husid
        rw [hl] at hu
        have hs0 : s0 = s := Option.some.inj hu.symm
        refine ⟨touchSession e s, alookup_aupsert_self _ _ _, ?_⟩
        rw [(touchSession_fields e s).2.2.2.2.1, hs0]
        rcases hT (u, s) (alookup_mem hl) with ⟨_, hle⟩
        exact hle e (List.mem_cons_self _ _)
      · refine ⟨s0, ?_, le_refl _⟩
        show alookup u (aupsert sid (touchSession e s) t.sessions) = some s0
        rw [alookup_aupsert_ne _ _ husid]
        exact hu

theorem applyEvent_bytes_step (env : Env) (e : ChunkEvent) (sid : UUID) (t : SessionTracker)
    (hn : (keysOf t.sessions).Nodup)
    (hfol : ∀ u2, u2 ∈ keysOf t.folded → u2 ∈ keysOf t.sessions)
    (hB : BytesOk t) :
    BytesOk (applyEvent env e sid t) := by
  unfold BytesOk at hB ⊢
  have hfiltersid : ∀ (u : UUID), ¬ u = sid →
      ([(sid, e)].filter (fun q => decide (q.1 = u))) = ([] : List (UUID × ChunkEvent)) := by
    intro u hu
    rw [List.filter_eq_nil_iff]
    intro q hq
    rw [List.mem_singleton] at hq
    rw [hq]
    simp only [decide_eq_true_eq]
    intro he
    exact hu he.symm
  have hfiltereq : ([(sid, e)].filter (fun q => decide (q.1 = sid)))
      = [(sid, e)] := by
    rw [List.filter_cons]
    simp
  rcases hl : alookup sid t.sessions with _ | s
  · rw [applyEvent_create env e sid t hl]
    have hsidnot : sid ∉ keysOf t.sessions := (alookup_eq_none_iff _ _).mp hl
    have hsidfol : sid ∉ keysOf t.folded := fun hx => hsidnot (hfol sid hx)
    intro p hp
    have hp2 : p ∈ t.sessions ++ [(sid, freshSession env e sid)] := hp
    show p.2.TotalBytes = (((t.folded ++ [(sid, e)]).filter
        (fun q => decide (q.1 = p.1))).map (fun q => q.2.ChunkSize)).sum
    rw [List.filter_append, List.map_append, List.sum_append]
    rcases List.mem_append.mp hp2 with hp3 | hp3
    · have hne : ¬ p.1 = sid := by
        intro he
        exact hsidnot (he ▸ mem_keysOf_of_mem hp3)
      rw [hfiltersid p.1 hne]
      have := hB p hp3
      simpa using this
    · rw [List.mem_singleton] at hp3
      rw [hp3]
      have hnilfold : (t.folded.filter (fun q => decide (q.1 = sid))) = [] := by
        rw [List.filter_eq_nil_iff]
        intro q hq
        simp only [decide_eq_true_eq]
        intro he
        exact hsidfol (he ▸ mem_keysOf_of_mem hq)
      rw [hnilfold, hfiltereq]
      rw [(freshSession_fields env e sid).2.2.2.2.2.1]
      simp
  · rw [applyEvent_update env e sid t hl]
    intro p hp
    have hp2 : p ∈ aupsert sid (touchSession e s) t.sessions := hp
    show p.2.TotalBytes = (((t.folded ++ [(sid, e)]).filter
        (fun q => decide (q.1 = p.1))).map (fun q => q.2.ChunkSize)).sum
    rw [List.filter_append, List.map_append, List.sum_append]
    rcases mem_aupsert_elim_nodup hn hp2 with hp3 | hp3
    · rw [hp3]
      have hold : s.TotalBytes = ((t.folded.filter
          (fun q => decide (q.1 = sid))).map (fun q => q.2.ChunkSize)).sum :=
        hB (sid, s) (alookup_mem hl)
      show (touchSession e s).TotalBytes
          = ((t.folded.filter (fun q => decide (q.1 = sid))).map
              (fun q => q.2.ChunkSize)).sum
            + (([(sid, e)].filter (fun q => decide (q.1 = sid))).map
              (fun q => q.2.ChunkSize)).sum
      rw [hfiltereq]
      rw [(touchSession_fields e s).2.2.2.2.2.1]
      simp only [List.map_cons, List.map_nil, List.sum_cons, List.sum_nil]
      rw [hold]
      omega
    · rw [hfiltersid p.1 hp3.2]
      have := hB p hp3.1
      simpa using this

theorem handleEvent_time_step (env : Env) (e : ChunkEvent) (t : SessionTracker)
    (rest : List ChunkEvent)
    (hT : TimeOk t (e :: rest)) (hch : chron (e :: rest)) :
    TimeOk (handleEvent env e t) rest ∧
    (∀ u s, alookup u t.sessions = some s →
       ∃ s2, alookup u (handleEvent env e t).sessions = some s2
         ∧ s.LastActive ≤ s2.LastActive) := by
  rcases handleEvent_exists_applyEvent env e t with ⟨sid, t2, heq, hsess, _⟩
  have hT2 : TimeOk t2 (e :: rest) := by
    unfold TimeOk at hT ⊢
    rw [hsess]
    exact hT
  have hstep := applyEvent_time_step env e sid t2 rest hT2 hch
  rw [heq]
  refine ⟨hstep.1, ?_⟩
  intro u s hu
  apply hstep.2
  rw [hsess]
  exact hu

theorem handleEvent_bytes_step (env : Env) (e : ChunkEvent) (t : SessionTracker)
    (hInv : Inv t) (hnr : NoReapInv t) (hB : BytesOk t) :
    BytesOk (handleEvent env e t) := by
  rcases handleEvent_exists_applyEvent env e t with ⟨sid, t2, heq, hsess, hfold⟩
  have hc := hInv
  unfold Inv at hc
  obtain ⟨h1, _, _, _, _, _⟩ := hc
  have hnr2 := hnr
  unfold NoReapInv at hnr2
  rw [heq]
  apply applyEvent_bytes_step env e sid t2
  · rw [hsess]
    exact h1
  · rw [hsess, hfold]
    exact hnr2.1
  · unfold BytesOk at hB ⊢
    rw [hsess, hfold]
    exact hB

theorem BytesOk_init (cap : Nat) (tmo itmo : Int) : BytesOk (initTracker cap tmo itmo) := by
  intro p hp
  have hp2 : p ∈ ([] : List (UUID × Session)) := hp
  cases hp2

theorem TimeOk_init (cap : Nat) (tmo itmo : Int) (l : List ChunkEvent) :
    TimeOk (initTracker cap tmo itmo) l := by
  intro p hp
  have hp2 : p ∈ ([] : List (UUID × Session)) := hp
  cases hp2

theorem processEvents_props (env : Env) :
    ∀ (evs : List ChunkEvent) (tail : List ChunkEvent) (t : SessionTracker),
      Inv t → NoReapInv t → BytesOk t → TimeOk t (evs ++ tail) → chron (evs ++ tail) →
      Inv (processEvents env evs t) ∧ NoReapInv (processEvents env evs t)
        ∧ BytesOk (processEvents env evs t)
        ∧ TimeOk (processEvents env evs t) tail ∧ chron tail := by
  intro evs
  induction evs with
  | nil =>
      intro tail t h1 h2 h3 h4 h5
      exact ⟨h1, h2, h3, h4, h5⟩
  | cons e rest ih =>
      intro tail t hInv hnr hB hT hch
      have hT2 : TimeOk t (e :: (rest ++ tail)) := hT
      have hch2 : chron (e :: (rest ++ tail)) := hch
      have hstep := handleEvent_time_step env e t (rest ++ tail) hT2 hch2
      have hchr : chron (rest ++ tail) := (List.pairwise_cons.mp hch2).2
      exact ih tail (handleEvent env e t) (Inv_handleEvent env e t hInv)
        (NoReapInv_handleEvent env e t hnr)
        (handleEvent_bytes_step env e t hInv hnr hB) hstep.1 hchr

theorem processEvents_mono (env : Env) :
    ∀ (evs : List ChunkEvent) (t : SessionTracker),
      TimeOk t evs → chron evs →
      ∀ u s s2, alookup u t.sessions = some s →
        alookup u (processEvents env evs t).sessions = some s2 →
        s.LastActive ≤ s2.LastActive := by
  intro evs
  induction evs with
  | nil =>
      intro t _ _ u s s2 h1 h2
      have h2b : alookup u t.sessions = some s2 := h2
      rw [h1] at h2b
      exact le_of_eq (congrArg Session.LastActive (Option.some.inj h2b))
  | cons e rest ih =>
      intro t hT hch u s s2 h1 h2
      rcases (handleEvent_time_step env e t rest hT hch).2 u s h1 with ⟨smid, hmid, hle⟩
      have hchr : chron rest := (List.pairwise_cons.mp hch).2
      have hT2 := (handleEvent_time_step env e t rest hT hch).1
      exact le_trans hle (ih (handleEvent env e t) hT2 hchr u smid s2 hmid h2)

/-! ## Claim C3 -/

/-- Claim C3 counterexample: two events for the same SID whose timestamps
arrive out of wall-clock order (times 10 then 3).  The code overwrites
last-active with the event time unconditionally, leaving the session with
start 10 and last-active 3, so start ≤ last_active fails and last-active
decreased. -/
theorem session_time_counterexample :
    ((alookup (UUID.parsed 1) (processEvents envC [e1C, e2C]
        (initTracker 10 60 86400)).sessions).getD dummySession).StartTime = 10 ∧
    ((alookup (UUID.parsed 1) (processEvents envC [e1C, e2C]
        (initTracker 10 60 86400)).sessions).getD dummySession).LastActive = 3 ∧
    ¬ ((alookup (UUID.parsed 1) (processEvents envC [e1C, e2C]
          (initTracker 10 60 86400)).sessions).getD dummySession).StartTime
        ≤ ((alookup (UUID.parsed 1) (processEvents envC [e1C, e2C]
          (initTracker 10 60 86400)).sessions).getD dummySession).LastActive := by
  decide

theorem processEvents_bytes (env : Env) :
    ∀ (evs : List ChunkEvent) (t : SessionTracker),
      Inv t → NoReapInv t → BytesOk t →
      BytesOk (processEvents env evs t) := by
  intro evs
  induction evs with
  | nil =>
      intro t _ _ h3
      exact h3
  | cons e rest ih =>
      intro t hInv hnr hB
      exact ih (handleEvent env e t) (Inv_handleEvent env e t hInv)
        (NoReapInv_handleEvent env e t hnr)
        (handleEvent_bytes_step env e t hInv hnr hB)

/-- Claim C3 (amended): for every event sequence — ordered or not —
every live session's total_bytes equals the sum of ChunkSize over the
events resolved to its UUID; and when the folded events carry
non-decreasing timestamps (event time reflects arrival order), every
live session additionally satisfies start ≤ last_active and last_active
is monotone across further processing. -/
theorem session_lifetime_amended (env : Env) (cap : Nat) (tmo itmo : Int)
    (evs evs2 : List ChunkEvent) :
    (∀ u s, alookup u (processEvents env evs (initTracker cap tmo itmo)).sessions = some s →
        s.TotalBytes = (((processEvents env evs (initTracker cap tmo itmo)).folded.filter
          (fun q => decide (q.1 = u))).map (fun q => q.2.ChunkSize)).sum)
    ∧ (chron (evs ++ evs2) →
        ∀ u s, alookup u (processEvents env evs (initTracker cap tmo itmo)).sessions = some s →
          s.StartTime ≤ s.LastActive
          ∧ (∀ s2, alookup u (processEvents env evs2 (processEvents env evs
                (initTracker cap tmo itmo))).sessions = some s2 →
              s.LastActive ≤ s2.LastActive)) := by
  constructor
  · intro u s hu
    have hBm := processEvents_bytes env evs (initTracker cap tmo itmo)
      (Inv_init cap tmo itmo) (NoReapInv_init cap tmo itmo) (BytesOk_init cap tmo itmo)
    exact hBm (u, s) (alookup_mem hu)
  · intro hch u s hu
    have hbase := processEvents_props env evs evs2 (initTracker cap tmo itmo)
      (Inv_init cap tmo itmo) (NoReapInv_init cap tmo itmo) (BytesOk_init cap tmo itmo)
      (TimeOk_init cap tmo itmo (evs ++ evs2)) hch
    obtain ⟨hInvm, hnrm, hBm, hTm, hchm⟩ := hbase
    have htime := hTm (u, s) (alookup_mem hu)
    refine ⟨htime.1, ?_⟩
    intro s2 hs2
    exact processEvents_mono env evs2 _ hTm hchm u s s2 hu hs2

/-- Witness for `session_lifetime_amended`: the byte law is exercised on
the out-of-order trace [e1C, e2C] (times 10 then 3) with no ordering
hypothesis, and the time clauses on the chronological run [e2C, e1C]
(times 3 then 10); both fold the same SID. -/
theorem session_lifetime_amended_witness :
    ((alookup (UUID.parsed 1) (processEvents envC [e1C, e2C]
        (initTracker 10 60 86400)).sessions).getD dummySession).TotalBytes
      = (((processEvents envC [e1C, e2C] (initTracker 10 60 86400)).folded.filter
          (fun q => decide (q.1 = UUID.parsed 1))).map (fun q => q.2.ChunkSize)).sum ∧
    ((alookup (UUID.parsed 1) (processEvents envC [e2C, e1C]
        (initTracker 10 60 86400)).sessions).getD dummySession).StartTime
      ≤ ((alookup (UUID.parsed 1) (processEvents envC [e2C, e1C]
        (initTracker 10 60 86400)).sessions).getD dummySession).LastActive ∧
    ((alookup (UUID.parsed 1) (processEvents envC [e2C, e1C]
        (initTracker 10 60 86400)).sessions).getD dummySession).TotalBytes
      = (((processEvents envC [e2C, e1C] (initTracker 10 60 86400)).folded.filter
          (fun q => decide (q.1 = UUID.parsed 1))).map (fun q => q.2.ChunkSize)).sum := by
  refine ⟨?_, ?_⟩
  · rcases hl : alookup (UUID.parsed 1) (processEvents envC [e1C, e2C]
        (initTracker 10 60 86400)).sessions with _ | s
    · exact absurd hl (by decide)
    · have happ := (session_lifetime_amended envC 10 60 86400 [e1C, e2C] []).1
        (UUID.parsed 1) s hl
      simp only [Option.getD_some]
      exact happ
  · rcases hl : alookup (UUID.parsed 1) (processEvents envC [e2C, e1C]
        (initTracker 10 60 86400)).sessions with _ | s
    · exact absurd hl (by decide)
    · have hbytes := (session_lifetime_amended envC 10 60 86400 [e2C, e1C] []).1
        (UUID.parsed 1) s hl
      have htime := (session_lifetime_amended envC 10 60 86400 [e2C, e1C] []).2
        (by unfold chron; decide) (UUID.parsed 1) s hl
      simp only [Option.getD_some]
      exact ⟨htime.1, hbytes⟩

end Hserv
